import Mathlib

/-!
Verification of the bitboard / position-model / move-generation core of the
`kritisch` chess engine (src/bitboard.rs, src/lib.rs, src/game.rs,
src/movegen.rs) against its natural-language specification.

Shallow embedding conventions:
* `u64` values (bitboards, raw masks) are `Nat` kept below `2 ^ 64`;
  bitwise ops are `Nat` bitwise ops, wrapping arithmetic is explicit `% 2 ^ 64`.
* A Rust `panic!` / `unwrap()` failure is modelled by the `PRes.panicked`
  constructor of the `PRes` result monad; `PRes.ok` is a normal return.
* `Square` is `Fin 64` (the source's 64-variant fieldless enum with
  discriminants 0..63), `Color` and `Piece` are the corresponding enums.
* Arrays indexed by `as usize` casts become accessor functions on explicit
  structure fields.
-/

set_option maxRecDepth 100000

/-- Result of running a piece of Rust code that may `panic!`: either a normal
value or a panic carrying the panic message. -/
inductive PRes (α : Type) where
  | ok : α → PRes α
  | panicked : String → PRes α
  deriving DecidableEq, Repr

namespace PRes

def bind : PRes α → (α → PRes β) → PRes β
  | .ok a, f => f a
  | .panicked m, _ => .panicked m

instance : Monad PRes where
  pure := .ok
  bind := PRes.bind

theorem bind_ok {x : PRes α} {f : α → PRes β} {b : β}
    (h : PRes.bind x f = .ok b) : ∃ a, x = .ok a ∧ f a = .ok b := by
  cases x with
  | ok a => exact ⟨a, rfl, h⟩
  | panicked m => simp [PRes.bind] at h

theorem ok_bind {a : α} {f : α → PRes β} : PRes.bind (.ok a) f = f a := rfl

end PRes

/-- `Color` enum from src/lib.rs (`WHITE = 0`, `BLACK = 1`). -/
inductive Color where
  | WHITE
  | BLACK
  deriving DecidableEq, Repr, Fintype

/-- `Color as u8` discriminant. -/
def Color.toIdx : Color → Nat
  | .WHITE => 0
  | .BLACK => 1

/-- `impl BitXor<u8> for Color` applied to `1`: `Color::from_u8(self as u8 ^ 1)`,
the canonical "other side" operation. -/
def Color.flip : Color → Color
  | .WHITE => .BLACK
  | .BLACK => .WHITE

/-- `Piece` enum from src/lib.rs with discriminants 0..5. -/
inductive Piece where
  | PAWN
  | KNIGHT
  | BISHOP
  | ROOK
  | QUEEN
  | KING
  deriving DecidableEq, Repr, Fintype

/-- `Piece as u8` discriminant. -/
def Piece.toIdx : Piece → Nat
  | .PAWN => 0
  | .KNIGHT => 1
  | .BISHOP => 2
  | .ROOK => 3
  | .QUEEN => 4
  | .KING => 5

/-- `Square` enum from src/lib.rs: 64 fieldless variants `A1 = 0 .. H8 = 63`,
file-major within rank. -/
abbrev Square := Fin 64

/-- `Square::from_u8`: panics for inputs above 63. -/
def squareFromU8 (v : Nat) : PRes Square :=
  if h : v < 64 then .ok ⟨v, h⟩ else .panicked "Unable to parse to square"

/-- `Move` struct from src/lib.rs: a (start, end) square pair.  The `end`
field is named `stop` because `end` is a Lean keyword. -/
structure Move where
  start : Square
  stop : Square
  deriving DecidableEq, Repr

/-- `CastlingRights` bit constants from src/lib.rs. -/
def CR_WHITE_KINGSIDE : Nat := 1
def CR_WHITE_QUEENSIDE : Nat := 2
def CR_BLACK_QUEENSIDE : Nat := 4
def CR_BLACK_KINGSIDE : Nat := 8
def CR_ALL_LEGAL : Nat := (CR_WHITE_KINGSIDE ||| CR_WHITE_QUEENSIDE) |||
  (CR_BLACK_KINGSIDE ||| CR_BLACK_QUEENSIDE)

/-- `try_square_offset` from src/lib.rs: offsets `square` by `dx` files and
`dy` ranks, returning `none` when the result leaves the board. -/
def try_square_offset (square : Square) (dx dy : Int) : Option Square :=
  let file : Int := (square.val : Int) % 8
  let rank : Int := (square.val : Int) / 8
  let new_file := file + dx
  let new_rank := rank + dy
  if h : 0 ≤ new_file ∧ new_file < 8 ∧ 0 ≤ new_rank ∧ new_rank < 8 then
    some ⟨(new_rank * 8 + new_file).toNat, by omega⟩
  else
    none

/-- `impl Sub<u8> for Square`: `Square::from_u8(self as u8 - rhs)`; the `u8`
subtraction itself panics on underflow. -/
def squareSubU8 (s : Square) (rhs : Nat) : PRes Square :=
  if s.val < rhs then .panicked "attempt to subtract with overflow"
  else squareFromU8 (s.val - rhs)

/-- `impl Add<u8> for Square`: `Square::from_u8(self as u8 + rhs)`; the `u8`
addition panics on overflow past 255. -/
def squareAddU8 (s : Square) (rhs : Nat) : PRes Square :=
  if s.val + rhs > 255 then .panicked "attempt to add with overflow"
  else squareFromU8 (s.val + rhs)

/-- `impl Add<i8> for Square`: `Square::from_u8((self as i8 + rhs) as u8)`.
The `i8` sum is wrapped into `u8` by the `as u8` cast (it never overflows
`i8` for the arguments the source uses). -/
def squareAddI8 (s : Square) (rhs : Int) : PRes Square :=
  let v : Int := (s.val : Int) + rhs
  squareFromU8 ((v % 256 + 256) % 256).toNat

/-! ## Bitboard (src/bitboard.rs)

A `Bitboard` is a newtype over `u64`; we model the raw value as a `Nat`
below `2 ^ 64`.  The set-algebra operators are `Nat` bitwise operators. -/

/-- All 64 bits set: the `u64` value `!0`. -/
def mask64 : Nat := 2 ^ 64 - 1

/-- `impl Not for Bitboard`: bitwise complement within `u64`. -/
def bbNot (b : Nat) : Nat := b ^^^ mask64

/-- `Square::to_u64` / `Bitboard::from_square`: `1 << square`. -/
def from_square (s : Square) : Nat := 1 <<< s.val

/-- `Bitboard::contains`: `self.0 & 1 << s != 0`. -/
def bbContains (b : Nat) (s : Square) : Bool := b.testBit s.val

/-- `Bitboard::is_empty`: `self.0 == 0`. -/
def bbIsEmpty (b : Nat) : Bool := b == 0

/-- Helper for `u64::trailing_zeros`: scans bits from the low end with
explicit fuel; fuel 64 covers every `u64`. -/
def tzAux : Nat → Nat → Nat
  | 0, _ => 0
  | f + 1, b => if b % 2 = 1 then 0 else 1 + tzAux f (b / 2)

/-- `Bitboard::trailing_zeros` (`u64::trailing_zeros`): index of the lowest
set bit, 64 for the empty bitboard. -/
def trailing_zeros (b : Nat) : Nat := tzAux 64 b

/-- Helper for `u64::count_ones`: adds the bits from the low end with
explicit fuel; fuel 64 covers every `u64`. -/
def coAux : Nat → Nat → Nat
  | 0, _ => 0
  | f + 1, b => b % 2 + coAux f (b / 2)

/-- `Bitboard::count_ones` (`u64::count_ones`): population count. -/
def count_ones (b : Nat) : Nat := coAux 64 b

/-- `Bitboard::clear_lsb`: `self.0 &= self.0 - 1`, where the subtraction is
the wrapping `u64` subtraction (modulo `2 ^ 64`). -/
def clear_lsb (b : Nat) : Nat := b &&& ((b + (2 ^ 64 - 1)) % 2 ^ 64)

/-- The ascending list of set-bit indices of a bitboard, as produced by the
source's destructive `trailing_zeros` / `clear_lsb` iteration loops; the
fuel (64) covers every `u64`. -/
def bitIdxAux : Nat → Nat → List Nat
  | 0, _ => []
  | f + 1, b => if b = 0 then [] else trailing_zeros b :: bitIdxAux f (clear_lsb b)

/-- Set-bit indices of a `u64` bitboard in ascending order. -/
def bitIndices (b : Nat) : List Nat := bitIdxAux 64 b

/-! Named `Square` constants mirroring the source enum variants. -/

def sqA1 : Square := ⟨0, by decide⟩
def sqB1 : Square := ⟨1, by decide⟩
def sqC1 : Square := ⟨2, by decide⟩
def sqD1 : Square := ⟨3, by decide⟩
def sqE1 : Square := ⟨4, by decide⟩
def sqF1 : Square := ⟨5, by decide⟩
def sqG1 : Square := ⟨6, by decide⟩
def sqH1 : Square := ⟨7, by decide⟩
def sqA2 : Square := ⟨8, by decide⟩
def sqB2 : Square := ⟨9, by decide⟩
def sqC2 : Square := ⟨10, by decide⟩
def sqD2 : Square := ⟨11, by decide⟩
def sqE2 : Square := ⟨12, by decide⟩
def sqF2 : Square := ⟨13, by decide⟩
def sqG2 : Square := ⟨14, by decide⟩
def sqH2 : Square := ⟨15, by decide⟩
def sqA3 : Square := ⟨16, by decide⟩
def sqB3 : Square := ⟨17, by decide⟩
def sqC3 : Square := ⟨18, by decide⟩
def sqD3 : Square := ⟨19, by decide⟩
def sqE3 : Square := ⟨20, by decide⟩
def sqF3 : Square := ⟨21, by decide⟩
def sqG3 : Square := ⟨22, by decide⟩
def sqH3 : Square := ⟨23, by decide⟩
def sqA4 : Square := ⟨24, by decide⟩
def sqB4 : Square := ⟨25, by decide⟩
def sqC4 : Square := ⟨26, by decide⟩
def sqD4 : Square := ⟨27, by decide⟩
def sqE4 : Square := ⟨28, by decide⟩
def sqF4 : Square := ⟨29, by decide⟩
def sqG4 : Square := ⟨30, by decide⟩
def sqH4 : Square := ⟨31, by decide⟩
def sqA5 : Square := ⟨32, by decide⟩
def sqB5 : Square := ⟨33, by decide⟩
def sqC5 : Square := ⟨34, by decide⟩
def sqD5 : Square := ⟨35, by decide⟩
def sqE5 : Square := ⟨36, by decide⟩
def sqF5 : Square := ⟨37, by decide⟩
def sqG5 : Square := ⟨38, by decide⟩
def sqH5 : Square := ⟨39, by decide⟩
def sqA6 : Square := ⟨40, by decide⟩
def sqB6 : Square := ⟨41, by decide⟩
def sqC6 : Square := ⟨42, by decide⟩
def sqD6 : Square := ⟨43, by decide⟩
def sqE6 : Square := ⟨44, by decide⟩
def sqF6 : Square := ⟨45, by decide⟩
def sqG6 : Square := ⟨46, by decide⟩
def sqH6 : Square := ⟨47, by decide⟩
def sqA7 : Square := ⟨48, by decide⟩
def sqB7 : Square := ⟨49, by decide⟩
def sqC7 : Square := ⟨50, by decide⟩
def sqD7 : Square := ⟨51, by decide⟩
def sqE7 : Square := ⟨52, by decide⟩
def sqF7 : Square := ⟨53, by decide⟩
def sqG7 : Square := ⟨54, by decide⟩
def sqH7 : Square := ⟨55, by decide⟩
def sqA8 : Square := ⟨56, by decide⟩
def sqB8 : Square := ⟨57, by decide⟩
def sqC8 : Square := ⟨58, by decide⟩
def sqD8 : Square := ⟨59, by decide⟩
def sqE8 : Square := ⟨60, by decide⟩
def sqF8 : Square := ⟨61, by decide⟩
def sqG8 : Square := ⟨62, by decide⟩
def sqH8 : Square := ⟨63, by decide⟩

/-! ## Knight table (src/movegen.rs `KNIGHT_MOVES`) -/

/-- `KNIGHT_MOVES` constant table from src/movegen.rs (indexed by square). -/
def KNIGHT_MOVES (s : Square) : Nat :=
  match s.val with
  | 0 => 132096 | 1 => 329728 | 2 => 659712 | 3 => 1319424
  | 4 => 2638848 | 5 => 5277696 | 6 => 10489856 | 7 => 4202496
  | 8 => 33816580 | 9 => 84410376 | 10 => 168886289 | 11 => 337772578
  | 12 => 675545156 | 13 => 1351090312 | 14 => 2685403152 | 15 => 1075839008
  | 16 => 8657044482 | 17 => 21609056261 | 18 => 43234889994 | 19 => 86469779988
  | 20 => 172939559976 | 21 => 345879119952 | 22 => 687463207072 | 23 => 275414786112
  | 24 => 2216203387392 | 25 => 5531918402816 | 26 => 11068131838464 | 27 => 22136263676928
  | 28 => 44272527353856 | 29 => 88545054707712 | 30 => 175990581010432 | 31 => 70506185244672
  | 32 => 567348067172352 | 33 => 1416171111120896 | 34 => 2833441750646784 | 35 => 5666883501293568
  | 36 => 11333767002587136 | 37 => 22667534005174272 | 38 => 45053588738670592 | 39 => 18049583422636032
  | 40 => 145241105196122112 | 41 => 362539804446949376 | 42 => 725361088165576704 | 43 => 1450722176331153408
  | 44 => 2901444352662306816 | 45 => 5802888705324613632 | 46 => 11533718717099671552 | 47 => 4620693356194824192
  | 48 => 288234782788157440 | 49 => 576469569871282176 | 50 => 1224997833292120064 | 51 => 2449995666584240128
  | 52 => 4899991333168480256 | 53 => 9799982666336960512 | 54 => 1152939783987658752 | 55 => 2305878468463689728
  | 56 => 1128098930098176 | 57 => 2257297371824128 | 58 => 4796069720358912 | 59 => 9592139440717824
  | 60 => 19184278881435648 | 61 => 38368557762871296 | 62 => 4679521487814656 | _ => 9077567998918656

/-- `pseudolegal_knight_moves` from src/movegen.rs: table lookup. -/
def pseudolegal_knight_moves (square : Square) : Nat := KNIGHT_MOVES square

/-! ## Sliding-attack tables

The crate declares `pub mod magics;` but src/magics.rs (the `ROOK_MAGICS`,
`ROOK_MOVES`, `BISHOP_MAGICS`, `BISHOP_MOVES` data) is not among the given
source files, so the table contents are modelled from the spec. -/

/-- Walks up to 7 steps from `s` in direction `(dx, dy)` via
`try_square_offset`, listing the squares of the open ray in order. -/
def rayStepsAux : Nat → Square → Int → Int → List Square
  | 0, _, _, _ => []
  | f + 1, s, dx, dy =>
    match try_square_offset s dx dy with
    | none => []
    | some t => t :: rayStepsAux f t dx dy

/-- The full ray from `s` (exclusive) to the board edge in direction `(dx, dy)`. -/
def raySquares (s : Square) (dx dy : Int) : List Square := rayStepsAux 7 s dx dy

/-- Squares of one ray up to and including the first blocker in `occ`. -/
def rayHitsAux (occ : Nat) : List Square → Nat
  | [] => 0
  | t :: r => if occ.testBit t.val then from_square t else from_square t ||| rayHitsAux occ r

/-- Attack bitboard of one ray given occupancy `occ`. -/
def rayAttackDir (occ : Nat) (s : Square) (dx dy : Int) : Nat :=
  rayHitsAux occ (raySquares s dx dy)

/-- The four rook ray directions. -/
def rookDirs : List (Int × Int) := [(1, 0), (-1, 0), (0, 1), (0, -1)]

/-- The four bishop ray directions. -/
def bishopDirs : List (Int × Int) := [(1, 1), (1, -1), (-1, 1), (-1, -1)]

/-- Ray-cast attack set from `s` along `dirs` for occupancy `occ`. -/
def rayAttacks (occ : Nat) (s : Square) (dirs : List (Int × Int)) : Nat :=
  dirs.foldl (fun acc d => acc ||| rayAttackDir occ s d.1 d.2) 0

/-- Bits of a list of squares. -/
def squaresBB (l : List Square) : Nat := l.foldl (fun acc t => acc ||| from_square t) 0

/-- Modelled from the spec: the relevant-occupancy mask of `ROOK_MAGICS[s]`
(src/magics.rs is absent from src/) — per §4.3 the per-square record masks the
actual occupancy down to the square's relevant blockers, which for a rook are
the ray squares short of the board edge. -/
def rookMask (s : Square) : Nat :=
  rookDirs.foldl (fun acc d => acc ||| squaresBB (raySquares s d.1 d.2).dropLast) 0

/-- Modelled from the spec: the relevant-occupancy mask of `BISHOP_MAGICS[s]`
(src/magics.rs is absent from src/), as for `rookMask`. -/
def bishopMask (s : Square) : Nat :=
  bishopDirs.foldl (fun acc d => acc ||| squaresBB (raySquares s d.1 d.2).dropLast) 0

/-- Modelled from the spec: the composite
`ROOK_MOVES[magic_index(&ROOK_MAGICS[s], blockers)]` lookup (src/magics.rs is
absent from src/) — `magic_index` first masks `blockers` with the record's
relevant-occupancy mask, and per §4.3/§8 the perfect-hash table yields the
brute-force ray-cast attack bitboard for that masked occupancy. -/
def rookMovesLookup (s : Square) (blockers : Nat) : Nat :=
  rayAttacks (blockers &&& rookMask s) s rookDirs

/-- Modelled from the spec: the composite
`BISHOP_MOVES[magic_index(&BISHOP_MAGICS[s], blockers)]` lookup (src/magics.rs
is absent from src/), as for `rookMovesLookup`. -/
def bishopMovesLookup (s : Square) (blockers : Nat) : Nat :=
  rayAttacks (blockers &&& bishopMask s) s bishopDirs

/-! ## The position model (src/game.rs `Game`) -/

/-- The `Game` struct from src/game.rs.  The two-element
`color_bitboards` array and six-element `piece_bitboards` array are split
into named fields; `cbWhite` is `color_bitboards[0]`, `pbPawn` is
`piece_bitboards[0]`, and so on in source order. -/
structure Game where
  cbWhite : Nat
  cbBlack : Nat
  pbPawn : Nat
  pbKnight : Nat
  pbBishop : Nat
  pbRook : Nat
  pbQueen : Nat
  pbKing : Nat
  to_move : Color
  castling_rights : Nat
  en_passant_square : Option Square
  in_check : Option Color
  halfmove_clock : Nat
  fullmove_clock : Nat
  deriving DecidableEq, Repr

/-- `self.color_bitboards[c as usize]`. -/
def color_bitboards (g : Game) : Color → Nat
  | .WHITE => g.cbWhite
  | .BLACK => g.cbBlack

/-- `self.piece_bitboards[p as usize]`. -/
def piece_bitboards (g : Game) : Piece → Nat
  | .PAWN => g.pbPawn
  | .KNIGHT => g.pbKnight
  | .BISHOP => g.pbBishop
  | .ROOK => g.pbRook
  | .QUEEN => g.pbQueen
  | .KING => g.pbKing

/-- Write `self.color_bitboards[c as usize]`. -/
def setColorBB (g : Game) (c : Color) (v : Nat) : Game :=
  match c with
  | .WHITE => { g with cbWhite := v }
  | .BLACK => { g with cbBlack := v }

/-- Write `self.piece_bitboards[p as usize]`. -/
def setPieceBB (g : Game) (p : Piece) (v : Nat) : Game :=
  match p with
  | .PAWN => { g with pbPawn := v }
  | .KNIGHT => { g with pbKnight := v }
  | .BISHOP => { g with pbBishop := v }
  | .ROOK => { g with pbRook := v }
  | .QUEEN => { g with pbQueen := v }
  | .KING => { g with pbKing := v }

/-- `Bitboard::from_squares`: fold of `|=` over a square list. -/
def from_squares (l : List Square) : Nat :=
  l.foldl (fun out s => out ||| from_square s) 0

/-- `impl Default for Game`: the standard chess starting position, built
from the same square lists as the source. -/
def gameDefault : Game :=
  let white_bb := from_squares [sqA1, sqB1, sqC1, sqD1, sqE1, sqF1, sqG1, sqH1,
    sqA2, sqB2, sqC2, sqD2, sqE2, sqF2, sqG2, sqH2]
  let black_bb := from_squares [sqA8, sqB8, sqC8, sqD8, sqE8, sqF8, sqG8, sqH8,
    sqA7, sqB7, sqC7, sqD7, sqE7, sqF7, sqG7, sqH7]
  let rook_bb := from_squares [sqA1, sqH1, sqA8, sqH8]
  let knight_bb := from_squares [sqB1, sqG1, sqB8, sqG8]
  let bishop_bb := from_squares [sqC1, sqF1, sqC8, sqF8]
  let queen_bb := from_squares [sqD1, sqD8]
  let king_bb := from_squares [sqE1, sqE8]
  let pawn_bb := from_squares [sqA2, sqB2, sqC2, sqD2, sqE2, sqF2, sqG2, sqH2,
    sqA7, sqB7, sqC7, sqD7, sqE7, sqF7, sqG7, sqH7]
  { cbWhite := white_bb, cbBlack := black_bb,
    pbPawn := pawn_bb, pbKnight := knight_bb, pbBishop := bishop_bb,
    pbRook := rook_bb, pbQueen := queen_bb, pbKing := king_bb,
    to_move := .WHITE, castling_rights := CR_ALL_LEGAL,
    en_passant_square := none, in_check := none,
    halfmove_clock := 0, fullmove_clock := 1 }

/-- `Game::empty` (private constructor used by the FEN parser). -/
def gameEmpty : Game :=
  { cbWhite := 0, cbBlack := 0,
    pbPawn := 0, pbKnight := 0, pbBishop := 0,
    pbRook := 0, pbQueen := 0, pbKing := 0,
    to_move := .WHITE, castling_rights := CR_ALL_LEGAL,
    en_passant_square := none, in_check := none,
    halfmove_clock := 0, fullmove_clock := 1 }

/-- `Game::type_at`: the first of the six piece bitboards (in index order)
containing `s`; panics when the square is empty. -/
def type_at (g : Game) (s : Square) : PRes Piece :=
  let mask := from_square s
  match [Piece.PAWN, Piece.KNIGHT, Piece.BISHOP, Piece.ROOK, Piece.QUEEN,
      Piece.KING].find? (fun p => !(bbIsEmpty (piece_bitboards g p &&& mask))) with
  | some piece => .ok piece
  | none => .panicked "Tried to get piece type from empty square"

/-- `Game::color_at`: the first of the two color bitboards containing `s`;
the source calls `.unwrap()` on the search, panicking when the square is
empty. -/
def color_at (g : Game) (s : Square) : PRes Color :=
  let mask := from_square s
  match [Color.WHITE, Color.BLACK].find?
      (fun c => !(bbIsEmpty (color_bitboards g c &&& mask))) with
  | some color => .ok color
  | none => .panicked "called Option::unwrap() on a None value"

/-- `Game::all_pieces`: union of the two color bitboards. -/
def all_pieces (g : Game) : Nat := color_bitboards g .WHITE ||| color_bitboards g .BLACK

/-- `Game::is_square_empty`. -/
def is_square_empty (g : Game) (s : Square) : Bool := !(bbContains (all_pieces g) s)

/-- `Game::move_piece`: XOR the origin bit and OR the destination bit into
the matching color and piece bitboards. -/
def move_piece (g : Game) (m : Move) (p : Piece) (c : Color) : Game :=
  let from_mask := from_square m.start
  let to_mask := from_square m.stop
  let g := setColorBB g c ((color_bitboards g c ^^^ from_mask) ||| to_mask)
  let g := setPieceBB g p ((piece_bitboards g p ^^^ from_mask) ||| to_mask)
  g

/-- `Game::is_capture`: destination occupied and of a different color than
the piece on the start square. -/
def is_capture (g : Game) (m : Move) : PRes Bool :=
  if is_square_empty g m.stop then .ok false
  else
    PRes.bind (color_at g m.stop) fun ce =>
    PRes.bind (color_at g m.start) fun cs =>
    if ce = cs then .ok false else .ok true

/-- `Game::is_castle`: recognizes the four canonical castling king moves. -/
def is_castle (m : Move) (piece : Piece) (color : Color) : Bool :=
  (piece == Piece.KING && color == Color.WHITE && m.start == sqE1 && m.stop == sqC1) ||
  (piece == Piece.KING && color == Color.WHITE && m.start == sqE1 && m.stop == sqG1) ||
  (piece == Piece.KING && color == Color.BLACK && m.start == sqE8 && m.stop == sqC8) ||
  (piece == Piece.KING && color == Color.BLACK && m.start == sqE8 && m.stop == sqG8)

/-- `Game::is_en_passant`: destination equals the current en-passant target
and the captured piece is a pawn. -/
def is_en_passant (g : Game) (m : Move) (captured_piece : Piece) : Bool :=
  g.en_passant_square == some m.stop && captured_piece == Piece.PAWN

/-- `u8` bitwise complement (`!CONST` on castling-right masks). -/
def u8Not (x : Nat) : Nat := x ^^^ 255

/-- `Game::remove_piece`: clears the captured piece's bits, updating the
castling rights when a rook is captured on its home square. -/
def remove_piece (g : Game) (s : Square) (piece : Piece) : PRes Game :=
  let mask := from_square s
  PRes.bind (color_at g s) fun color =>
  let g :=
    if piece = Piece.ROOK then
      if s = sqA1 ∧ color = Color.WHITE then
        { g with castling_rights := g.castling_rights &&& u8Not CR_WHITE_QUEENSIDE }
      else if s = sqH1 ∧ color = Color.WHITE then
        { g with castling_rights := g.castling_rights &&& u8Not CR_WHITE_KINGSIDE }
      else if s = sqA8 ∧ color = Color.BLACK then
        { g with castling_rights := g.castling_rights &&& u8Not CR_BLACK_QUEENSIDE }
      else if s = sqH8 ∧ color = Color.BLACK then
        { g with castling_rights := g.castling_rights &&& u8Not CR_BLACK_KINGSIDE }
      else g
    else g
  let g := setColorBB g color (color_bitboards g color ^^^ mask)
  let g := setPieceBB g piece (piece_bitboards g piece ^^^ mask)
  .ok g

/-- `Game::handle_capture`: removes the captured piece — from the square
behind the destination on an en-passant capture, from the destination
otherwise. -/
def handle_capture (g : Game) (m : Move) (p : Piece) (c : Color) : PRes Game :=
  PRes.bind (type_at g m.stop) fun captured_piece =>
  let is_ep := if p = Piece.PAWN then is_en_passant g m captured_piece else false
  if !is_ep then
    remove_piece g m.stop captured_piece
  else
    match c with
    | .WHITE =>
      PRes.bind (squareSubU8 m.stop 8) fun target_square =>
      remove_piece g target_square captured_piece
    | .BLACK =>
      PRes.bind (squareAddU8 m.stop 8) fun target_square =>
      remove_piece g target_square captured_piece

/-- `Game::make_move` from src/game.rs: the sole state-mutating move
application (castling rook relocation, capture removal, piece relocation,
clock updates, side-to-move flip). -/
def make_move (g : Game) (m : Move) : PRes Game :=
  PRes.bind (type_at g m.start) fun piece =>
  PRes.bind (color_at g m.start) fun color =>
  PRes.bind (is_capture g m) fun isCap =>
  let isCas := if piece = Piece.KING then is_castle m piece color else false
  PRes.bind
    (if isCas then
      if m.stop = sqC1 then
        .ok (move_piece g { start := sqA1, stop := sqD1 } Piece.ROOK color)
      else if m.stop = sqG1 then
        .ok (move_piece g { start := sqH1, stop := sqF1 } Piece.ROOK color)
      else if m.stop = sqC8 then
        .ok (move_piece g { start := sqA8, stop := sqD8 } Piece.ROOK color)
      else if m.stop = sqG8 then
        .ok (move_piece g { start := sqH8, stop := sqF8 } Piece.ROOK color)
      else .panicked "Castling to illegal square"
    else .ok g) fun g1 =>
  PRes.bind (if isCap then handle_capture g1 m piece color else .ok g1) fun g2 =>
  let g3 := move_piece g2 m piece color
  let g4 := if piece = Piece.PAWN ∨ isCap = true then
      { g3 with halfmove_clock := 0 }
    else
      { g3 with halfmove_clock := g3.halfmove_clock + 1 }
  let g5 := if g4.to_move = Color.BLACK then
      { g4 with fullmove_clock := g4.fullmove_clock + 1 }
    else g4
  .ok { g5 with to_move := g5.to_move.flip }

/-- `Game::is_attacked_by_knight`: the knight-move pattern from `square`
intersected with the knights of `color` (the source's
`trailing_zeros`/`clear_lsb` loop over candidate origins). -/
def is_attacked_by_knight (g : Game) (color : Color) (square : Square) : Bool :=
  let origins := pseudolegal_knight_moves square
  (bitIndices origins).any fun i =>
    (color_bitboards g color &&& piece_bitboards g Piece.KNIGHT).testBit i

/-- `Game::is_attacked_by_king`: probes the source's eight-entry offset
table — which lists `(1, -1)` twice and omits `(1, 1)` — for a king of
`color`. -/
def is_attacked_by_king (g : Game) (color : Color) (square : Square) : Bool :=
  [((-1 : Int), (-1 : Int)), (-1, 1), (1, -1), (1, -1), (0, -1), (0, 1),
    (-1, 0), (1, 0)].any fun d =>
    match try_square_offset square d.1 d.2 with
    | some s => bbContains (piece_bitboards g Piece.KING &&& color_bitboards g color) s
    | none => false

/-- `Game::is_attacked_by_slider`: queries the (spec-modelled) magic tables
at `square` with the queen-relevant blockers and scans the resulting ray
squares for a rook, bishop or queen of `color`. -/
def is_attacked_by_slider (g : Game) (color : Color) (square : Square) : Bool :=
  let blockers := (rookMask square ||| bishopMask square) &&& all_pieces g
  let moves := rookMovesLookup square blockers ||| bishopMovesLookup square blockers
  (bitIndices moves).any fun i =>
    (color_bitboards g color).testBit i &&
      ((piece_bitboards g Piece.ROOK).testBit i ||
       (piece_bitboards g Piece.BISHOP).testBit i ||
       (piece_bitboards g Piece.QUEEN).testBit i)

/-- `Game::is_attacked_by`: reverse pawn-attack probes for `color`, then the
knight, king and slider checks. -/
def is_attacked_by (g : Game) (color : Color) (square : Square) : Bool :=
  let pawnHit :=
    match color with
    | Color.WHITE =>
      (match try_square_offset square (-1) (-1) with
       | some offset => bbContains (piece_bitboards g Piece.PAWN &&& color_bitboards g Color.WHITE) offset
       | none => false) ||
      (match try_square_offset square 1 (-1) with
       | some offset => bbContains (piece_bitboards g Piece.PAWN &&& color_bitboards g Color.WHITE) offset
       | none => false)
    | Color.BLACK =>
      (match try_square_offset square (-1) 1 with
       | some offset => bbContains (piece_bitboards g Piece.PAWN &&& color_bitboards g Color.BLACK) offset
       | none => false) ||
      (match try_square_offset square 1 1 with
       | some offset => bbContains (piece_bitboards g Piece.PAWN &&& color_bitboards g Color.BLACK) offset
       | none => false)
  pawnHit || is_attacked_by_knight g color square || is_attacked_by_king g color square ||
    is_attacked_by_slider g color square

/-! ## Move generation (src/movegen.rs) -/

/-- `knight_moves`: the pattern from the table minus own-color squares. -/
def knight_moves (g : Game) (square : Square) : PRes Nat :=
  PRes.bind (color_at g square) fun color =>
  .ok (pseudolegal_knight_moves square &&& bbNot (color_bitboards g color))

/-- `pawn_moves`: single push onto an empty square, double push from the
home rank through an empty intermediate square, diagonal captures onto
occupied or en-passant-target squares, minus own-color squares. -/
def pawn_moves (g : Game) (square : Square) : PRes Nat :=
  PRes.bind (color_at g square) fun color =>
  let direction : Int := match color with | .WHITE => 1 | .BLACK => -1
  PRes.bind
    (match try_square_offset square 0 direction with
     | some offset =>
       if is_square_empty g offset then
         let m1 := from_square offset
         if (square.val / 8 = 1 ∧ color = Color.WHITE) ∨
             (square.val / 8 = 6 ∧ color = Color.BLACK) then
           PRes.bind (squareAddI8 square (16 * direction)) fun two_ahead =>
           if is_square_empty g two_ahead then .ok (m1 ||| from_square two_ahead)
           else .ok m1
         else .ok m1
       else .ok 0
     | none => .ok 0) fun movesFwd =>
  let movesCap := [(-1 : Int), 1].foldl (fun acc dx =>
    match try_square_offset square dx direction with
    | some offset =>
      if !is_square_empty g offset || g.en_passant_square == some offset then
        acc ||| from_square offset
      else acc
    | none => acc) 0
  .ok ((movesFwd ||| movesCap) &&& bbNot (color_bitboards g color))

/-- The `for (dx, dy) in [...]` one-step destination loop of `king_moves`. -/
def kingStepsFold (square : Square) : Nat :=
  [((1 : Int), (1 : Int)), (1, 0), (1, -1), (0, 1), (0, -1),
      (-1, 1), (-1, 0), (-1, -1)].foldl
    (fun acc d =>
      match try_square_offset square d.1 d.2 with
      | some offset => acc ||| from_square offset
      | none => acc) 0

/-- `king_moves`: locates the king of `color` (panicking when there is
none), unions the eight one-step destinations, then — when the cached
`in_check` is `None` — the kingside castling destination if its rights bit
is set and the squares between king and rook home are empty, `else` the
queenside destination under the analogous condition; finally masks out
own-color squares. -/
def king_moves (g : Game) (color : Color) : PRes Nat :=
  let king_mask := color_bitboards g color &&& piece_bitboards g Piece.KING
  if bbIsEmpty king_mask then .panicked "No king found"
  else
    PRes.bind (squareFromU8 (trailing_zeros king_mask)) fun square =>
    let moves := kingStepsFold square
    let moves :=
      if g.in_check.isNone then
        match color with
        | Color.WHITE =>
          if g.castling_rights &&& CR_WHITE_KINGSIDE ≠ 0 ∧
              is_square_empty g sqF1 ∧ is_square_empty g sqG1 then
            moves ||| from_square sqG1
          else if g.castling_rights &&& CR_WHITE_QUEENSIDE ≠ 0 ∧
              is_square_empty g sqB1 ∧ is_square_empty g sqC1 ∧
              is_square_empty g sqD1 then
            moves ||| from_square sqC1
          else moves
        | Color.BLACK =>
          if g.castling_rights &&& CR_BLACK_KINGSIDE ≠ 0 ∧
              is_square_empty g sqF8 ∧ is_square_empty g sqG8 then
            moves ||| from_square sqG8
          else if g.castling_rights &&& CR_BLACK_QUEENSIDE ≠ 0 ∧
              is_square_empty g sqB8 ∧ is_square_empty g sqC8 ∧
              is_square_empty g sqD8 then
            moves ||| from_square sqC8
          else moves
      else moves
    .ok (moves &&& bbNot (color_bitboards g color))

/-- `get_blockers_from_position`: the piece's relevant-occupancy mask
restricted to the pieces actually on the board; panics for non-sliders. -/
def get_blockers_from_position (g : Game) (piece : Piece) (square : Square) : PRes Nat :=
  PRes.bind
    (match piece with
     | Piece.ROOK => .ok (rookMask square)
     | Piece.BISHOP => .ok (bishopMask square)
     | Piece.QUEEN => .ok (rookMask square ||| bishopMask square)
     | _ => .panicked "Non slider-piece passed to get_blockers_from_position")
    fun blockers => .ok (blockers &&& all_pieces g)

/-- `pseudolegal_slider_moves`: magic-table lookup for the slider on
`square`; panics for non-sliders. -/
def pseudolegal_slider_moves (g : Game) (square : Square) : PRes Nat :=
  PRes.bind (type_at g square) fun piece =>
  PRes.bind (get_blockers_from_position g piece square) fun blockers =>
  match piece with
  | Piece.ROOK => .ok (rookMovesLookup square blockers)
  | Piece.BISHOP => .ok (bishopMovesLookup square blockers)
  | Piece.QUEEN => .ok (rookMovesLookup square blockers ||| bishopMovesLookup square blockers)
  | _ => .panicked "Non-slider piece passed to pseudolegal_slider_moves"

/-- `slider_moves`: pseudo-legal slider moves minus own-color squares. -/
def slider_moves (g : Game) (square : Square) : PRes Nat :=
  PRes.bind (pseudolegal_slider_moves g square) fun moves =>
  PRes.bind (color_at g square) fun color =>
  .ok (moves &&& bbNot (color_bitboards g color))

/-- The inner `while !move_bb.is_empty()` loop of `all_legal_moves`:
turns the destination-square indices into `Move`s from `s`. -/
def mapStops (s : Square) : List Nat → PRes (List Move)
  | [] => .ok []
  | j :: r =>
    PRes.bind (squareFromU8 j) fun e =>
    PRes.bind (mapStops s r) fun ms =>
    .ok ({ start := s, stop := e } :: ms)

/-- One iteration of the outer piece loop of `all_legal_moves`: dispatch on
the piece kind at square index `i` and collect its candidate moves. -/
def genMovesAt (g : Game) (i : Nat) : PRes (List Move) :=
  PRes.bind (squareFromU8 i) fun s =>
  PRes.bind (type_at g s) fun p =>
  PRes.bind
    (match p with
     | Piece.ROOK | Piece.BISHOP | Piece.QUEEN => slider_moves g s
     | Piece.PAWN => pawn_moves g s
     | Piece.KNIGHT => knight_moves g s
     | Piece.KING => king_moves g g.to_move)
    fun bb => mapStops s (bitIndices bb)

/-- The outer `while !pieces.is_empty()` loop of `all_legal_moves`. -/
def pseudoAux (g : Game) : List Nat → List Move → PRes (List Move)
  | [], acc => .ok acc
  | i :: r, acc =>
    PRes.bind (genMovesAt g i) fun ms =>
    pseudoAux g r (acc ++ ms)

/-- The legality test inside the `retain` closure of `all_legal_moves`:
apply the candidate on a copy and test whether the mover's king square is
attacked by the opponent. -/
def keepMove (g : Game) (color : Color) (m : Move) : PRes Bool :=
  PRes.bind (make_move g m) fun game_copy =>
  PRes.bind (squareFromU8 (trailing_zeros
      (color_bitboards game_copy color &&& piece_bitboards game_copy Piece.KING)))
    fun king_square =>
  .ok (!(is_attacked_by game_copy color.flip king_square))

/-- The `retain` pass of `all_legal_moves` (keeps order). -/
def retainAux (g : Game) (color : Color) : List Move → PRes (List Move)
  | [] => .ok []
  | m :: r =>
    PRes.bind (keepMove g color m) fun keep =>
    PRes.bind (retainAux g color r) fun rest =>
    .ok (if keep then m :: rest else rest)

/-- `all_legal_moves` from src/movegen.rs: pseudo-legal generation over the
side to move's pieces followed by the self-check `retain` filter. -/
def all_legal_moves (g : Game) : PRes (List Move) :=
  let color := g.to_move
  PRes.bind (pseudoAux g (bitIndices (all_pieces g &&& color_bitboards g color)) [])
    fun moves => retainAux g color moves

/-! ## Legal-move chains and the §3 bitboard invariants -/

/-- Union of the six piece bitboards. -/
def pieceUnion (g : Game) : Nat :=
  g.pbPawn ||| g.pbKnight ||| g.pbBishop ||| g.pbRook ||| g.pbQueen ||| g.pbKing

/-- Invariant 1 of §3 (claim C3 wording): no square is set in more than one
of the six piece bitboards. -/
def piecesDisjointB (g : Game) : Bool :=
  (g.pbPawn &&& g.pbKnight == 0) && (g.pbPawn &&& g.pbBishop == 0) &&
  (g.pbPawn &&& g.pbRook == 0) && (g.pbPawn &&& g.pbQueen == 0) &&
  (g.pbPawn &&& g.pbKing == 0) && (g.pbKnight &&& g.pbBishop == 0) &&
  (g.pbKnight &&& g.pbRook == 0) && (g.pbKnight &&& g.pbQueen == 0) &&
  (g.pbKnight &&& g.pbKing == 0) && (g.pbBishop &&& g.pbRook == 0) &&
  (g.pbBishop &&& g.pbQueen == 0) && (g.pbBishop &&& g.pbKing == 0) &&
  (g.pbRook &&& g.pbQueen == 0) && (g.pbRook &&& g.pbKing == 0) &&
  (g.pbQueen &&& g.pbKing == 0)

/-- The bitboard invariants claimed for every position reached by legal
moves: pairwise-disjoint piece bitboards and color occupancy equal to piece
occupancy. -/
def claimInvB (g : Game) : Bool :=
  piecesDisjointB g && (g.cbWhite ||| g.cbBlack) == pieceUnion g

/-- Plays a list of moves from `g`, insisting that each move is an element
of `all_legal_moves` of the current position before applying it with
`make_move`. -/
def playChain : Game → List Move → PRes Game
  | g, [] => .ok g
  | g, m :: r =>
    PRes.bind (all_legal_moves g) fun ms =>
    if m ∈ ms then PRes.bind (make_move g m) fun g2 => playChain g2 r
    else .panicked "move was not generated by all_legal_moves"

/-- A 19-ply line from the starting position: white walks the h1-rook to h3
and the g1-knight to h1, clears f1/g1, and castles kingside while h1 holds
a knight — the rook relocation XOR then conjures rook bits and erases the
knight's color bit. -/
def c3seq : List Move :=
  [{ start := sqH2, stop := sqH4 }, { start := sqA7, stop := sqA6 },
   { start := sqH1, stop := sqH3 }, { start := sqA6, stop := sqA5 },
   { start := sqG1, stop := sqF3 }, { start := sqB7, stop := sqB6 },
   { start := sqF3, stop := sqG5 }, { start := sqB6, stop := sqB5 },
   { start := sqG5, stop := sqE4 }, { start := sqC7, stop := sqC6 },
   { start := sqE4, stop := sqG3 }, { start := sqC6, stop := sqC5 },
   { start := sqG3, stop := sqH1 }, { start := sqD7, stop := sqD6 },
   { start := sqE2, stop := sqE3 }, { start := sqD6, stop := sqD5 },
   { start := sqF1, stop := sqE2 }, { start := sqE7, stop := sqE6 },
   { start := sqE1, stop := sqG1 }]


/-- The 20 legal moves of the starting position, in generation order (the
list asserted by the crate's own test `all_legal_from_initial`). -/
def initialMoves : List Move :=
  [{ start := sqB1, stop := sqA3 }, { start := sqB1, stop := sqC3 },
   { start := sqG1, stop := sqF3 }, { start := sqG1, stop := sqH3 },
   { start := sqA2, stop := sqA3 }, { start := sqA2, stop := sqA4 },
   { start := sqB2, stop := sqB3 }, { start := sqB2, stop := sqB4 },
   { start := sqC2, stop := sqC3 }, { start := sqC2, stop := sqC4 },
   { start := sqD2, stop := sqD3 }, { start := sqD2, stop := sqD4 },
   { start := sqE2, stop := sqE3 }, { start := sqE2, stop := sqE4 },
   { start := sqF2, stop := sqF3 }, { start := sqF2, stop := sqF4 },
   { start := sqG2, stop := sqG3 }, { start := sqG2, stop := sqG4 },
   { start := sqH2, stop := sqH3 }, { start := sqH2, stop := sqH4 }]

/-! ## Claim-specific positions and predicates -/

/-- The position after applying e2–e4 to the starting position (explicit
record, used as a concrete witness value). -/
def gameAfterE2E4 : Game :=
  { cbWhite := 268496895, cbBlack := 18446462598732840960,
    pbPawn := 71776119329713920, pbKnight := 4755801206503243842,
    pbBishop := 2594073385365405732, pbRook := 9295429630892703873,
    pbQueen := 576460752303423496, pbKing := 1152921504606846992,
    to_move := .BLACK, castling_rights := CR_ALL_LEGAL,
    en_passant_square := none, in_check := none,
    halfmove_clock := 0, fullmove_clock := 1 }

/-- The starting position with a stale en-passant target on a3. -/
def gameStaleEP : Game := { gameDefault with en_passant_square := some sqA3 }

/-- A position where white can capture en passant: white pawn e5, black
pawn d5 (which just double-stepped), en-passant target d6. -/
def gameEP : Game :=
  { cbWhite := from_squares [sqE1, sqE5], cbBlack := from_squares [sqE8, sqD5],
    pbPawn := from_squares [sqE5, sqD5], pbKnight := 0, pbBishop := 0,
    pbRook := 0, pbQueen := 0, pbKing := from_squares [sqE1, sqE8],
    to_move := .WHITE, castling_rights := 0,
    en_passant_square := some sqD6, in_check := none,
    halfmove_clock := 0, fullmove_clock := 3 }

/-- A position in which both of white's castling conditions hold at once:
king e1, rooks a1 and h1, all rights set, b1–d1 and f1/g1 empty. -/
def gameBothCastles : Game :=
  { cbWhite := from_squares [sqA1, sqE1, sqH1], cbBlack := from_squares [sqE8],
    pbPawn := 0, pbKnight := 0, pbBishop := 0,
    pbRook := from_squares [sqA1, sqH1], pbQueen := 0,
    pbKing := from_squares [sqE1, sqE8],
    to_move := .WHITE, castling_rights := CR_ALL_LEGAL,
    en_passant_square := none, in_check := none,
    halfmove_clock := 0, fullmove_clock := 1 }

/-- A board holding only a white king on b2. -/
def gameKingB2 : Game :=
  { cbWhite := from_square sqB2, cbBlack := 0,
    pbPawn := 0, pbKnight := 0, pbBishop := 0,
    pbRook := 0, pbQueen := 0, pbKing := from_square sqB2,
    to_move := .WHITE, castling_rights := 0,
    en_passant_square := none, in_check := none,
    halfmove_clock := 0, fullmove_clock := 1 }

/-- The seven distinct directions actually probed by the source's
`is_attacked_by_king` offset table (it lists `(1, -1)` twice and omits
`(1, 1)`). -/
def kingProbeDirs : List (Int × Int) :=
  [(-1, -1), (-1, 1), (1, -1), (0, -1), (0, 1), (-1, 0), (1, 0)]

/-- The kingside castling-generation condition tested by `king_moves`. -/
@[reducible] def kingsideCondition (g : Game) (c : Color) : Prop :=
  match c with
  | .WHITE => g.castling_rights &&& CR_WHITE_KINGSIDE ≠ 0 ∧
      is_square_empty g sqF1 ∧ is_square_empty g sqG1
  | .BLACK => g.castling_rights &&& CR_BLACK_KINGSIDE ≠ 0 ∧
      is_square_empty g sqF8 ∧ is_square_empty g sqG8

/-- The queenside castling-generation condition tested by `king_moves`. -/
@[reducible] def queensideCondition (g : Game) (c : Color) : Prop :=
  match c with
  | .WHITE => g.castling_rights &&& CR_WHITE_QUEENSIDE ≠ 0 ∧
      is_square_empty g sqB1 ∧ is_square_empty g sqC1 ∧ is_square_empty g sqD1
  | .BLACK => g.castling_rights &&& CR_BLACK_QUEENSIDE ≠ 0 ∧
      is_square_empty g sqB8 ∧ is_square_empty g sqC8 ∧ is_square_empty g sqD8

/-- The kingside castling destination of a color. -/
def ksDest : Color → Square
  | .WHITE => sqG1
  | .BLACK => sqG8

/-- The queenside castling destination of a color. -/
def qsDest : Color → Square
  | .WHITE => sqC1
  | .BLACK => sqC8

/-- The rook home square relocated by `make_move`'s castling branch for a
given castling destination of the king. -/
def castleRookSource (s : Square) : Square :=
  if s = sqC1 then sqA1 else if s = sqG1 then sqH1
  else if s = sqC8 then sqA8 else sqH8

/-- A bitboard with at most one set bit. -/
def AtMostOne (b : Nat) : Prop :=
  ∀ i j, b.testBit i = true → b.testBit j = true → i = j

/-- The strengthened position invariant used to push the §3 bitboard
invariants through legal-move chains: well-formed (`u64`-ranged) bitboards,
disjoint colors, pairwise-disjoint piece kinds, color occupancy equal to
piece occupancy, no en-passant target, and at most one king per color. -/
structure Good (g : Game) : Prop where
  wfW : g.cbWhite < 2 ^ 64
  wfB : g.cbBlack < 2 ^ 64
  wfP : ∀ p : Piece, piece_bitboards g p < 2 ^ 64
  cdisj : g.cbWhite &&& g.cbBlack = 0
  pdisj : ∀ p q : Piece, p ≠ q → piece_bitboards g p &&& piece_bitboards g q = 0
  ueq : g.cbWhite ||| g.cbBlack = pieceUnion g
  epn : g.en_passant_square = none
  k1 : ∀ c : Color, AtMostOne (color_bitboards g c &&& piece_bitboards g Piece.KING)

/-- Side condition of the amended C3: whenever the applied move triggers
`make_move`'s castling dispatch, the castling rook is actually standing on
its home corner square. -/
def CastleOk (g : Game) (m : Move) : Prop :=
  ∀ p c, type_at g m.start = .ok p → color_at g m.start = .ok c →
    is_castle m p c = true →
    bbContains (piece_bitboards g Piece.ROOK &&& color_bitboards g c)
      (castleRookSource m.stop) = true

/-- `ReachBy g ms g2`: playing the moves `ms` from `g` reaches `g2`, where
each move is drawn from `all_legal_moves` of the current position and
applied with `make_move`, and each castling move satisfies `CastleOk`. -/
inductive ReachBy : Game → List Move → Game → Prop where
  | nil (g : Game) : ReachBy g [] g
  | cons {g g1 g2 : Game} {m : Move} {ms L : List Move} :
      all_legal_moves g = .ok L → m ∈ L → CastleOk g m →
      make_move g m = .ok g1 → ReachBy g1 ms g2 → ReachBy g (m :: ms) g2

/-! ## Bit-level helper lemmas -/

theorem from_square_eq (s : Square) : from_square s = 2 ^ s.val := by
  simp [from_square, Nat.shiftLeft_eq]

theorem testBit_double (c i : Nat) : (2 * c).testBit (i + 1) = c.testBit i := by
  rw [Nat.testBit_add_one, Nat.mul_div_cancel_left c (by norm_num)]

theorem testBit_double_zero (c : Nat) : (2 * c).testBit 0 = false := by
  rw [Nat.testBit_zero]
  simp [Nat.mul_mod_right]

theorem testBit_dsucc (c i : Nat) : (2 * c + 1).testBit (i + 1) = c.testBit i := by
  rw [Nat.testBit_add_one]
  congr 1
  omega

theorem testBit_dsucc_zero (c : Nat) : (2 * c + 1).testBit 0 = true := by
  rw [Nat.testBit_zero]
  simp [Nat.add_mul_mod_self_left, Nat.mul_add_mod]

theorem land_odd_even (c : Nat) : (2 * c + 1) &&& (2 * c) = 2 * c := by
  apply Nat.eq_of_testBit_eq
  intro i
  cases i with
  | zero => simp [Nat.testBit_land, testBit_double_zero]
  | succ j => simp [Nat.testBit_land, testBit_double, testBit_dsucc]

theorem land_even_osub (c : Nat) : (2 * c) &&& (2 * (c - 1) + 1) = 2 * (c &&& (c - 1)) := by
  apply Nat.eq_of_testBit_eq
  intro i
  cases i with
  | zero => simp [Nat.testBit_land, testBit_double_zero]
  | succ j => simp [Nat.testBit_land, testBit_double, testBit_dsucc]

theorem tzAux_zero (f : Nat) : tzAux f 0 = f := by
  induction f with
  | zero => rfl
  | succ n ih =>
    simp [tzAux, ih]
    omega

/-- For a nonzero `b` below `2 ^ f`, `tzAux f b` is the index of the lowest
set bit of `b`. -/
theorem tzAux_spec (f : Nat) : ∀ b, b ≠ 0 → b < 2 ^ f →
    b.testBit (tzAux f b) = true ∧ ∀ j < tzAux f b, b.testBit j = false := by
  induction f with
  | zero => intro b h0 hlt; omega
  | succ n ih =>
    intro b h0 hlt
    by_cases hpar : b % 2 = 1
    · refine ⟨?_, ?_⟩
      · simp [tzAux, hpar, Nat.testBit_zero]
      · intro j hj
        simp [tzAux, hpar] at hj
    · have hb2 : b / 2 ≠ 0 := by omega
      have hb2lt : b / 2 < 2 ^ n := by
        rw [pow_succ] at hlt
        omega
      obtain ⟨ih1, ih2⟩ := ih (b / 2) hb2 hb2lt
      have htz : tzAux (n + 1) b = 1 + tzAux n (b / 2) := by
        simp [tzAux, hpar]
      refine ⟨?_, ?_⟩
      · rw [htz, Nat.add_comm, Nat.testBit_add_one]
        exact ih1
      · intro j hj
        rw [htz] at hj
        cases j with
        | zero =>
          rw [Nat.testBit_zero]
          simp [hpar]
        | succ k =>
          rw [Nat.testBit_add_one]
          exact ih2 k (by omega)

/-- Core of the `clear_lsb` analysis, by induction on the bit-width fuel:
`b &&& (b - 1)` clears the lowest set bit, keeps the others, and drops the
population count by one. -/
theorem landPredAux (f : Nat) : ∀ b, b ≠ 0 → b < 2 ^ f →
    (b &&& (b - 1)).testBit (tzAux f b) = false ∧
    (∀ i, i ≠ tzAux f b → (b &&& (b - 1)).testBit i = b.testBit i) ∧
    coAux f (b &&& (b - 1)) + 1 = coAux f b := by
  induction f with
  | zero => intro b h0 hlt; omega
  | succ n ih =>
    intro b h0 hlt
    by_cases hpar : b % 2 = 1
    · obtain ⟨c, rfl⟩ : ∃ c, b = 2 * c + 1 := ⟨b / 2, by omega⟩
      have hsub : 2 * c + 1 - 1 = 2 * c := by omega
      rw [hsub, land_odd_even]
      have htz : tzAux (n + 1) (2 * c + 1) = 0 := by
        simp [tzAux, hpar]
      refine ⟨?_, ?_, ?_⟩
      · rw [htz]; exact testBit_double_zero c
      · intro i hi
        rw [htz] at hi
        obtain ⟨j, rfl⟩ : ∃ j, i = j + 1 := ⟨i - 1, by omega⟩
        rw [testBit_double, testBit_dsucc]
      · show coAux (n + 1) (2 * c) + 1 = coAux (n + 1) (2 * c + 1)
        have h1 : 2 * c % 2 = 0 := by omega
        have h2 : 2 * c / 2 = c := by omega
        have h3 : (2 * c + 1) % 2 = 1 := by omega
        have h4 : (2 * c + 1) / 2 = c := by omega
        simp only [coAux, h1, h2, h3, h4]
        omega
    · obtain ⟨c, rfl⟩ : ∃ c, b = 2 * c := ⟨b / 2, by omega⟩
      have hc0 : c ≠ 0 := by omega
      have hclt : c < 2 ^ n := by
        rw [pow_succ] at hlt
        omega
      have hsub : 2 * c - 1 = 2 * (c - 1) + 1 := by omega
      rw [hsub, land_even_osub]
      obtain ⟨iha, ihb, ihc⟩ := ih c hc0 hclt
      have htz : tzAux (n + 1) (2 * c) = 1 + tzAux n c := by
        have : 2 * c % 2 = 0 := by omega
        simp [tzAux, this, Nat.mul_div_cancel_left c (show 0 < 2 by norm_num)]
      refine ⟨?_, ?_, ?_⟩
      · rw [htz, Nat.add_comm, testBit_double]
        exact iha
      · intro i hi
        rw [htz] at hi
        cases i with
        | zero => rw [testBit_double_zero, testBit_double_zero]
        | succ j =>
          rw [testBit_double, testBit_double]
          exact ihb j (by omega)
      · show coAux (n + 1) (2 * (c &&& (c - 1))) + 1 = coAux (n + 1) (2 * c)
        have h1 : 2 * (c &&& (c - 1)) % 2 = 0 := by omega
        have h2 : 2 * (c &&& (c - 1)) / 2 = c &&& (c - 1) := by omega
        have h3 : 2 * c % 2 = 0 := by omega
        have h4 : 2 * c / 2 = c := by omega
        simp only [coAux, h1, h2, h3, h4]
        omega

theorem clear_lsb_eq_land_pred (b : Nat) (hb : b < 2 ^ 64) :
    clear_lsb b = b &&& (b - 1) := by
  rcases Nat.eq_zero_or_pos b with h0 | hpos
  · subst h0
    simp [clear_lsb]
  · have h : (b + (2 ^ 64 - 1)) % 2 ^ 64 = b - 1 := by
      have h2 : b + (2 ^ 64 - 1) = (b - 1) + 2 ^ 64 := by omega
      rw [h2, Nat.add_mod_right, Nat.mod_eq_of_lt (by omega)]
    unfold clear_lsb
    rw [h]

/-- C10: for every nonempty bitboard `b`, `clear_lsb` replaces `b` by
`b &&& (b - 1)`, which clears exactly the lowest set bit (the
`trailing_zeros` index), leaves every other bit unchanged, and decreases
the population count by exactly one; for the empty bitboard the wrapping
`0 - 1` subtraction still yields the empty bitboard, so the operation is
total. -/
theorem c10_clear_lsb_spec (b : Nat) (hb : b < 2 ^ 64) :
    (b ≠ 0 →
      clear_lsb b = b &&& (b - 1) ∧
      b.testBit (trailing_zeros b) = true ∧
      (∀ j < trailing_zeros b, b.testBit j = false) ∧
      (clear_lsb b).testBit (trailing_zeros b) = false ∧
      (∀ i, i ≠ trailing_zeros b → (clear_lsb b).testBit i = b.testBit i) ∧
      count_ones (clear_lsb b) + 1 = count_ones b) ∧
    (b = 0 → clear_lsb b = 0) := by
  constructor
  · intro h0
    have he := clear_lsb_eq_land_pred b hb
    obtain ⟨ht1, ht2⟩ := tzAux_spec 64 b h0 hb
    obtain ⟨ha, hob, hc⟩ := landPredAux 64 b h0 hb
    rw [he]
    exact ⟨rfl, ht1, ht2, ha, hob, hc⟩
  · intro h0
    subst h0
    simp [clear_lsb]

/-- Witness for C10 at the concrete bitboard 12 (bits 2 and 3 set). -/
theorem c10_clear_lsb_spec_witness :
    clear_lsb 12 = 12 &&& (12 - 1) ∧ count_ones (clear_lsb 12) + 1 = count_ones 12 :=
  ⟨((c10_clear_lsb_spec 12 (by decide)).1 (by decide)).1,
   ((c10_clear_lsb_spec 12 (by decide)).1 (by decide)).2.2.2.2.2⟩

theorem land_from_square_eq_zero {b : Nat} {s : Square} (h : b.testBit s.val = false) :
    b &&& from_square s = 0 := by
  apply Nat.eq_of_testBit_eq
  intro i
  rw [Nat.testBit_land, from_square_eq, Nat.testBit_two_pow, Nat.zero_testBit]
  by_cases hi : s.val = i
  · subst hi
    simp [h]
  · simp [hi]

theorem tz_lt_64 {b : Nat} (h0 : b ≠ 0) (hlt : b < 2 ^ 64) : trailing_zeros b < 64 := by
  by_contra hge
  have hset : b.testBit (trailing_zeros b) = true := (tzAux_spec 64 b h0 hlt).1
  have hb : b < 2 ^ trailing_zeros b :=
    lt_of_lt_of_le hlt (Nat.pow_le_pow_right (by norm_num) (by omega))
  rw [Nat.testBit_lt_two_pow hb] at hset
  exact Bool.false_ne_true hset

/-- C1: `make_move` panics when the start square is empty, and silently
applies (mutating the position, no error) a move whose destination holds a
piece of the mover's own color — the claimed recoverable illegal-move error
with unchanged state does not exist. -/
theorem c1_make_move_unchecked :
    make_move gameDefault { start := sqE3, stop := sqE4 } =
      .panicked "Tried to get piece type from empty square" ∧
    (match make_move gameDefault { start := sqE2, stop := sqF2 } with
     | .ok g2 => g2.cbWhite != gameDefault.cbWhite
     | .panicked _ => false) = true := by decide

/-- C2: `make_move` never writes `en_passant_square`: a pawn double step
from the starting position leaves it `none` (the claim requires the passed
square e3), and a knight move from a position with a stale target leaves
the stale target in place (the claim requires clearing). -/
theorem c2_en_passant_never_written :
    (match make_move gameDefault { start := sqE2, stop := sqE4 } with
     | .ok g2 => g2.en_passant_square == none
     | .panicked _ => false) = true ∧
    (match make_move gameStaleEP { start := sqB1, stop := sqC3 } with
     | .ok g2 => g2.en_passant_square == some sqA3
     | .panicked _ => false) = true := by decide

/-- C4: a pawn capture onto the (empty) en-passant target square is not a
capture for `is_capture`, so `make_move` removes nothing: the opposing pawn
stays on d5 while the capturing pawn lands on d6. -/
theorem c4_ep_capture_removes_nothing :
    (match make_move gameEP { start := sqE5, stop := sqD6 } with
     | .ok g2 => bbContains (g2.pbPawn &&& g2.cbBlack) sqD5 &&
         bbContains (g2.pbPawn &&& g2.cbWhite) sqD6
     | .panicked _ => false) = true := by decide

/-- C7 counterexample: at the empty square e6 of the starting position both
queries panic (as the crate's own `should_panic` tests assert) instead of
reporting an absence. -/
theorem c7_counterexample :
    type_at gameDefault sqE6 = .panicked "Tried to get piece type from empty square" ∧
    color_at gameDefault sqE6 = .panicked "called Option::unwrap() on a None value" := by
  decide

/-- C7 amended: on every empty square, `type_at` panics with "Tried to get
piece type from empty square" and `color_at` panics through
`Option::unwrap`; neither returns an absence value. -/
theorem c7_amended (g : Game) (s : Square)
    (hp : ∀ p : Piece, (piece_bitboards g p).testBit s.val = false)
    (hc : ∀ c : Color, (color_bitboards g c).testBit s.val = false) :
    type_at g s = .panicked "Tried to get piece type from empty square" ∧
    color_at g s = .panicked "called Option::unwrap() on a None value" := by
  constructor
  · have h0 : ∀ p : Piece, bbIsEmpty (piece_bitboards g p &&& from_square s) = true := by
      intro p
      simp [bbIsEmpty, land_from_square_eq_zero (hp p)]
    simp [type_at, List.find?, h0]
  · have h0 : ∀ c : Color, bbIsEmpty (color_bitboards g c &&& from_square s) = true := by
      intro c
      simp [bbIsEmpty, land_from_square_eq_zero (hc c)]
    simp [color_at, List.find?, h0]

/-- Witness for the amended C7 at square a1 of the empty board. -/
theorem c7_amended_witness :
    type_at gameEmpty sqA1 = .panicked "Tried to get piece type from empty square" ∧
    color_at gameEmpty sqA1 = .panicked "called Option::unwrap() on a None value" :=
  c7_amended gameEmpty sqA1 (by decide) (by decide)

/-- C8 counterexample: `king_moves` panics with "No king found" on a board
with no white king instead of returning a recoverable invalid-position
error. -/
theorem c8_counterexample :
    king_moves gameEmpty Color.WHITE = .panicked "No king found" := by decide

/-- C8 amended: whenever the given color has no king on the board,
`king_moves` panics with "No king found"; no recoverable error value is
produced. -/
theorem c8_amended (g : Game) (c : Color)
    (h : color_bitboards g c &&& piece_bitboards g Piece.KING = 0) :
    king_moves g c = .panicked "No king found" := by
  unfold king_moves
  rw [h]
  simp [bbIsEmpty]

/-- Witness for the amended C8: the black king query on the empty board. -/
theorem c8_amended_witness :
    king_moves gameEmpty Color.BLACK = .panicked "No king found" :=
  c8_amended gameEmpty Color.BLACK (by decide)

/-- C6 counterexample: a white king on b2 stands one king step in direction
`(1, 1)` from a1, yet `is_attacked_by` misses it, because the source's king
offset table lists `(1, -1)` twice instead of `(1, 1)`. -/
theorem c6_counterexample :
    try_square_offset sqA1 1 1 = some sqB2 ∧
    bbContains (piece_bitboards gameKingB2 Piece.KING &&&
      color_bitboards gameKingB2 Color.WHITE) sqB2 = true ∧
    is_attacked_by gameKingB2 Color.WHITE sqA1 = false := by decide

/-- C6 amended: for the seven directions that do appear in the source's
king offset table (all eight except `(1, 1)`), a king of color `c` on the
offset square makes `is_attacked_by c` report the square attacked. -/
theorem c6_amended (g : Game) (c : Color) (s t : Square) (dx dy : Int)
    (hd : (dx, dy) ∈ kingProbeDirs)
    (ho : try_square_offset s dx dy = some t)
    (hk : bbContains (piece_bitboards g Piece.KING &&& color_bitboards g c) t = true) :
    is_attacked_by g c s = true := by
  have hkg : is_attacked_by_king g c s = true := by
    unfold is_attacked_by_king
    rw [List.any_eq_true]
    refine ⟨(dx, dy), ?_, ?_⟩
    · fin_cases hd <;> decide
    · simp only
      rw [ho]
      exact hk
  unfold is_attacked_by
  cases c <;> simp [hkg]

/-- Witness for the amended C6: the white king on b2 attacks b1 (direction
`(0, 1)` from b1). -/
theorem c6_amended_witness : is_attacked_by gameKingB2 Color.WHITE sqB1 = true :=
  c6_amended gameKingB2 Color.WHITE sqB1 sqB2 0 1 (by decide) (by decide) (by decide)

theorem empty_square_color_testBit {g : Game} {s : Square}
    (h : is_square_empty g s = true) (c : Color) :
    (color_bitboards g c).testBit s.val = false := by
  unfold is_square_empty bbContains all_pieces at h
  rw [Bool.not_eq_true', Nat.testBit_lor, Bool.or_eq_false_iff] at h
  cases c
  · exact h.1
  · exact h.2

theorem contains_castle_add {steps cb : Nat} {d : Square} (hcb : cb.testBit d.val = false) :
    bbContains ((steps ||| from_square d) &&& bbNot cb) d = true := by
  unfold bbContains bbNot
  rw [Nat.testBit_land, Nat.testBit_lor, Nat.testBit_xor, from_square_eq,
    Nat.testBit_two_pow_self, mask64, Nat.testBit_two_pow_sub_one]
  simp [hcb, d.isLt]

/-- C5 counterexample: with white king e1, rooks a1/h1, full rights and the
whole first rank between them empty, both castling conditions hold, yet
`king_moves` offers only g1 and not c1 — the `else if` makes kingside
preempt queenside. -/
theorem c5_counterexample :
    kingsideCondition gameBothCastles Color.WHITE ∧
    queensideCondition gameBothCastles Color.WHITE ∧
    (match king_moves gameBothCastles Color.WHITE with
     | .ok mv => bbContains mv sqG1 && !(bbContains mv sqC1)
     | .panicked _ => false) = true := by decide

/-- C5 amended: when the cached `in_check` is clear and the per-branch
condition holds, `king_moves` includes the kingside castling destination;
the queenside destination is included only when additionally the kingside
condition fails (the branches are chained by `else if`, not independent). -/
theorem c5_amended (g : Game) (c : Color)
    (h0 : color_bitboards g c &&& piece_bitboards g Piece.KING ≠ 0)
    (hwf : color_bitboards g c < 2 ^ 64)
    (hchk : g.in_check = none) :
    (kingsideCondition g c →
      ∃ mv, king_moves g c = .ok mv ∧ bbContains mv (ksDest c) = true) ∧
    (¬kingsideCondition g c → queensideCondition g c →
      ∃ mv, king_moves g c = .ok mv ∧ bbContains mv (qsDest c) = true) := by
  have hne : bbIsEmpty (color_bitboards g c &&& piece_bitboards g Piece.KING) = false := by
    simp [bbIsEmpty]
    exact h0
  have hmlt : color_bitboards g c &&& piece_bitboards g Piece.KING < 2 ^ 64 :=
    lt_of_le_of_lt Nat.and_le_left hwf
  have h64 := tz_lt_64 h0 hmlt
  constructor
  · intro hks
    cases c with
    | WHITE =>
      unfold king_moves
      simp only [hne, Bool.false_eq_true, if_false, squareFromU8, dif_pos h64, PRes.ok_bind,
        hchk, Option.isNone_none, if_true]
      rw [if_pos hks]
      exact ⟨_, rfl, contains_castle_add (empty_square_color_testBit hks.2.2 Color.WHITE)⟩
    | BLACK =>
      unfold king_moves
      simp only [hne, Bool.false_eq_true, if_false, squareFromU8, dif_pos h64, PRes.ok_bind,
        hchk, Option.isNone_none, if_true]
      rw [if_pos hks]
      exact ⟨_, rfl, contains_castle_add (empty_square_color_testBit hks.2.2 Color.BLACK)⟩
  · intro hnks hqs
    cases c with
    | WHITE =>
      unfold king_moves
      simp only [hne, Bool.false_eq_true, if_false, squareFromU8, dif_pos h64, PRes.ok_bind,
        hchk, Option.isNone_none, if_true]
      rw [if_neg hnks, if_pos hqs]
      exact ⟨_, rfl, contains_castle_add (empty_square_color_testBit hqs.2.2.1 Color.WHITE)⟩
    | BLACK =>
      unfold king_moves
      simp only [hne, Bool.false_eq_true, if_false, squareFromU8, dif_pos h64, PRes.ok_bind,
        hchk, Option.isNone_none, if_true]
      rw [if_neg hnks, if_pos hqs]
      exact ⟨_, rfl, contains_castle_add (empty_square_color_testBit hqs.2.2.1 Color.BLACK)⟩

/-- Witness for the amended C5: the kingside branch at `gameBothCastles`. -/
theorem c5_amended_witness :
    ∃ mv, king_moves gameBothCastles Color.WHITE = .ok mv ∧
      bbContains mv (ksDest Color.WHITE) = true :=
  (c5_amended gameBothCastles Color.WHITE (by decide) (by decide) (by decide)).1 (by decide)

theorem setColorBB_clocks (g : Game) (c : Color) (v : Nat) :
    (setColorBB g c v).halfmove_clock = g.halfmove_clock ∧
    (setColorBB g c v).fullmove_clock = g.fullmove_clock ∧
    (setColorBB g c v).to_move = g.to_move := by
  cases c <;> exact ⟨rfl, rfl, rfl⟩

theorem setPieceBB_clocks (g : Game) (p : Piece) (v : Nat) :
    (setPieceBB g p v).halfmove_clock = g.halfmove_clock ∧
    (setPieceBB g p v).fullmove_clock = g.fullmove_clock ∧
    (setPieceBB g p v).to_move = g.to_move := by
  cases p <;> exact ⟨rfl, rfl, rfl⟩

theorem move_piece_clocks (g : Game) (m : Move) (p : Piece) (c : Color) :
    (move_piece g m p c).halfmove_clock = g.halfmove_clock ∧
    (move_piece g m p c).fullmove_clock = g.fullmove_clock ∧
    (move_piece g m p c).to_move = g.to_move := by
  unfold move_piece
  refine ⟨?_, ?_, ?_⟩
  · rw [(setPieceBB_clocks _ _ _).1, (setColorBB_clocks _ _ _).1]
  · rw [(setPieceBB_clocks _ _ _).2.1, (setColorBB_clocks _ _ _).2.1]
  · rw [(setPieceBB_clocks _ _ _).2.2, (setColorBB_clocks _ _ _).2.2]

theorem remove_piece_clocks {g : Game} {s : Square} {p : Piece} {g2 : Game}
    (h : remove_piece g s p = .ok g2) :
    g2.halfmove_clock = g.halfmove_clock ∧ g2.fullmove_clock = g.fullmove_clock ∧
    g2.to_move = g.to_move := by
  unfold remove_piece at h
  obtain ⟨c, hc, h2⟩ := PRes.bind_ok h
  dsimp only at h2
  injection h2 with h2
  subst h2
  refine ⟨?_, ?_, ?_⟩
  · rw [(setPieceBB_clocks _ _ _).1, (setColorBB_clocks _ _ _).1]
    split_ifs <;> rfl
  · rw [(setPieceBB_clocks _ _ _).2.1, (setColorBB_clocks _ _ _).2.1]
    split_ifs <;> rfl
  · rw [(setPieceBB_clocks _ _ _).2.2, (setColorBB_clocks _ _ _).2.2]
    split_ifs <;> rfl

theorem handle_capture_clocks {g : Game} {m : Move} {p : Piece} {c : Color} {g2 : Game}
    (h : handle_capture g m p c = .ok g2) :
    g2.halfmove_clock = g.halfmove_clock ∧ g2.fullmove_clock = g.fullmove_clock ∧
    g2.to_move = g.to_move := by
  unfold handle_capture at h
  obtain ⟨q, hq, h2⟩ := PRes.bind_ok h
  dsimp only at h2
  split at h2 <;> split at h2 <;>
    first
      | exact remove_piece_clocks h2
      | cases c with
        | WHITE =>
          obtain ⟨t, ht, h3⟩ := PRes.bind_ok h2
          exact remove_piece_clocks h3
        | BLACK =>
          obtain ⟨t, ht, h3⟩ := PRes.bind_ok h2
          exact remove_piece_clocks h3

theorem make_move_tail (gc : Game) (m : Move) (p : Piece) (c : Color) (cap : Bool) (g2 : Game)
    (h : (let g3 := move_piece gc m p c
          let g4 := if p = Piece.PAWN ∨ cap = true then { g3 with halfmove_clock := 0 }
            else { g3 with halfmove_clock := g3.halfmove_clock + 1 }
          let g5 := if g4.to_move = Color.BLACK then { g4 with fullmove_clock := g4.fullmove_clock + 1 }
            else g4
          PRes.ok { g5 with to_move := g5.to_move.flip }) = PRes.ok g2) :
    g2.halfmove_clock = (if p = Piece.PAWN ∨ cap = true then 0 else gc.halfmove_clock + 1) ∧
    g2.fullmove_clock =
      (if gc.to_move = Color.BLACK then gc.fullmove_clock + 1 else gc.fullmove_clock) := by
  obtain ⟨hh, hf, ht⟩ := move_piece_clocks gc m p c
  injection h with h
  subst h
  constructor
  · by_cases hpc : p = Piece.PAWN ∨ cap = true <;>
      by_cases htm : gc.to_move = Color.BLACK <;>
      simp [hpc, htm, hh, hf, ht]
  · by_cases hpc : p = Piece.PAWN ∨ cap = true <;>
      by_cases htm : gc.to_move = Color.BLACK <;>
      simp [hpc, htm, hh, hf, ht]

/-- C9: for every move accepted by `make_move`, the halfmove clock is
zeroed exactly when the moving piece is a pawn or the move is a capture and
incremented otherwise, and the fullmove clock is incremented exactly when
the side to move (the side making this ply) is black. -/
theorem c9_clocks (g : Game) (m : Move) (g2 : Game) (p : Piece) (cap : Bool)
    (hp : type_at g m.start = .ok p)
    (hcap : is_capture g m = .ok cap)
    (hmm : make_move g m = .ok g2) :
    g2.halfmove_clock = (if p = Piece.PAWN ∨ cap = true then 0 else g.halfmove_clock + 1) ∧
    g2.fullmove_clock =
      (if g.to_move = Color.BLACK then g.fullmove_clock + 1 else g.fullmove_clock) := by
  unfold make_move at hmm
  rw [hp, PRes.ok_bind] at hmm
  obtain ⟨c, hcol, hmm⟩ := PRes.bind_ok hmm
  try dsimp only at hmm
  rw [hcap, PRes.ok_bind] at hmm
  try dsimp only at hmm
  obtain ⟨g1, hg1, hmm⟩ := PRes.bind_ok hmm
  try dsimp only at hmm
  obtain ⟨gc, hgc, hmm⟩ := PRes.bind_ok hmm
  try dsimp only at hmm
  have hg1c : g1.halfmove_clock = g.halfmove_clock ∧ g1.fullmove_clock = g.fullmove_clock ∧
      g1.to_move = g.to_move := by
    repeat' split at hg1
    all_goals
      first
        | (injection hg1 with hg1
           subst hg1
           exact move_piece_clocks g _ Piece.ROOK c)
        | (injection hg1 with hg1
           subst hg1
           exact ⟨rfl, rfl, rfl⟩)
        | exact (PRes.noConfusion hg1)
  have hgcc : gc.halfmove_clock = g.halfmove_clock ∧ gc.fullmove_clock = g.fullmove_clock ∧
      gc.to_move = g.to_move := by
    repeat' split at hgc
    all_goals
      first
        | (injection hgc with hgc
           subst hgc
           exact hg1c)
        | (obtain ⟨hh, hf, ht⟩ := handle_capture_clocks hgc
           exact ⟨hg1c.1 ▸ hh, hg1c.2.1 ▸ hf, hg1c.2.2 ▸ ht⟩)
  obtain ⟨hth, htf⟩ := make_move_tail gc m p c cap g2 hmm
  constructor
  · rw [hth, hgcc.1]
  · rw [htf, hgcc.2.2, hgcc.2.1]

/-- Witness for C9: the double pawn push e2–e4 from the starting position. -/
theorem c9_clocks_witness :
    gameAfterE2E4.halfmove_clock =
      (if Piece.PAWN = Piece.PAWN ∨ false = true then 0 else gameDefault.halfmove_clock + 1) ∧
    gameAfterE2E4.fullmove_clock =
      (if gameDefault.to_move = Color.BLACK then gameDefault.fullmove_clock + 1
       else gameDefault.fullmove_clock) :=
  c9_clocks gameDefault { start := sqE2, stop := sqE4 } gameAfterE2E4 Piece.PAWN false
    (by decide) (by decide) (by decide)

/-! ## Infrastructure for the invariant-preservation analysis (C3) -/

theorem ne_zero_of_testBit {b i : Nat} (h : b.testBit i = true) : b ≠ 0 := by
  intro h0
  subst h0
  rw [Nat.zero_testBit] at h
  exact Bool.false_ne_true h

theorem disjoint_testBit {a b : Nat} {i : Nat} (hd : a &&& b = 0)
    (ha : a.testBit i = true) : b.testBit i = false := by
  by_contra hb
  rw [Bool.not_eq_false] at hb
  have : (a &&& b).testBit i = true := by
    rw [Nat.testBit_land, ha, hb]
    rfl
  rw [hd, Nat.zero_testBit] at this
  exact Bool.false_ne_true this

theorem lor_lt {a b n : Nat} (ha : a < 2 ^ n) (hb : b < 2 ^ n) : a ||| b < 2 ^ n :=
  Nat.bitwise_lt_two_pow ha hb

theorem testBit_lt_64 {b j : Nat} (hb : b < 2 ^ 64) (h : b.testBit j = true) : j < 64 := by
  by_contra hj
  have : b < 2 ^ j := lt_of_lt_of_le hb (Nat.pow_le_pow_right (by norm_num) (by omega))
  rw [Nat.testBit_lt_two_pow this] at h
  exact Bool.false_ne_true h

theorem clear_lsb_le (b : Nat) : clear_lsb b ≤ b := Nat.and_le_left

theorem testBit_of_clear_lsb {b j : Nat} (h : (clear_lsb b).testBit j = true) :
    b.testBit j = true := by
  unfold clear_lsb at h
  rw [Nat.testBit_land, Bool.and_eq_true] at h
  exact h.1

theorem bitIdxAux_mem {f : Nat} : ∀ {b : Nat}, b < 2 ^ 64 →
    ∀ {j}, j ∈ bitIdxAux f b → b.testBit j = true := by
  induction f with
  | zero => intro b _ j hj; simp [bitIdxAux] at hj
  | succ n ih =>
    intro b hb j hj
    unfold bitIdxAux at hj
    by_cases h0 : b = 0
    · simp [h0] at hj
    · rw [if_neg h0] at hj
      rcases List.mem_cons.mp hj with h | h
      · subst h
        exact (tzAux_spec 64 b h0 hb).1
      · exact testBit_of_clear_lsb (ih (lt_of_le_of_lt (clear_lsb_le b) hb) h)

theorem bitIndices_mem {b : Nat} (hb : b < 2 ^ 64) {j : Nat} (h : j ∈ bitIndices b) :
    b.testBit j = true := bitIdxAux_mem hb h

theorem atMostOne_eq_two_pow {b : Nat} {i : Nat} (h1 : AtMostOne b)
    (h2 : b.testBit i = true) : b = 2 ^ i := by
  apply Nat.eq_of_testBit_eq
  intro j
  by_cases hj : j = i
  · subst hj
    rw [h2, Nat.testBit_two_pow_self]
  · rw [Nat.testBit_two_pow_of_ne (fun he => hj he.symm)]
    by_contra hbj
    rw [Bool.not_eq_false] at hbj
    exact hj (h1 j i hbj h2)

theorem land_pow_ne_zero_testBit {b : Nat} {s : Square}
    (h : b &&& from_square s ≠ 0) : b.testBit s.val = true := by
  obtain ⟨i, hi⟩ := Nat.ne_zero_implies_bit_true h
  rw [Nat.testBit_land, from_square_eq, Nat.testBit_two_pow, Bool.and_eq_true] at hi
  have : s.val = i := by
    have := hi.2
    simpa using this
  rw [this]
  exact hi.1

theorem testBit_update {b : Nat} (a e : Square) (i : Nat) :
    ((b ^^^ from_square a) ||| from_square e).testBit i =
      (((b.testBit i).xor (decide (a.val = i))) || decide (e.val = i)) := by
  rw [Nat.testBit_lor, Nat.testBit_xor, from_square_eq, from_square_eq,
    Nat.testBit_two_pow, Nat.testBit_two_pow]

theorem testBit_bbNot {b : Nat} {i : Nat} (hi : i < 64) :
    (bbNot b).testBit i = !(b.testBit i) := by
  unfold bbNot mask64
  rw [Nat.testBit_xor, Nat.testBit_two_pow_sub_one]
  simp [hi]

theorem land_bbNot_spec {x own : Nat} {j : Nat} (hj : j < 64)
    (h : (x &&& bbNot own).testBit j = true) :
    x.testBit j = true ∧ own.testBit j = false := by
  rw [Nat.testBit_land, Bool.and_eq_true, testBit_bbNot hj] at h
  exact ⟨h.1, by simpa using h.2⟩

theorem land_bbNot_lt {x own : Nat} (h : own < 2 ^ 64) : x &&& bbNot own < 2 ^ 64 := by
  apply lt_of_le_of_lt Nat.and_le_right
  unfold bbNot mask64
  exact Nat.xor_lt_two_pow h (by norm_num)

theorem type_at_ok_testBit {g : Game} {s : Square} {p : Piece}
    (h : type_at g s = .ok p) : (piece_bitboards g p).testBit s.val = true := by
  unfold type_at at h
  dsimp only at h
  cases hf : List.find? (fun p => !(bbIsEmpty (piece_bitboards g p &&& from_square s)))
      [Piece.PAWN, Piece.KNIGHT, Piece.BISHOP, Piece.ROOK, Piece.QUEEN, Piece.KING] with
  | none => rw [hf] at h; exact absurd h (by simp)
  | some q =>
    rw [hf] at h
    injection h with h
    subst h
    have hq := List.find?_some hf
    apply land_pow_ne_zero_testBit
    have hz : bbIsEmpty (piece_bitboards g q &&& from_square s) = false := by
      simpa using hq
    simpa [bbIsEmpty] using hz

theorem color_at_ok_testBit {g : Game} {s : Square} {c : Color}
    (h : color_at g s = .ok c) : (color_bitboards g c).testBit s.val = true := by
  unfold color_at at h
  dsimp only at h
  cases hf : List.find? (fun c => !(bbIsEmpty (color_bitboards g c &&& from_square s)))
      [Color.WHITE, Color.BLACK] with
  | none => rw [hf] at h; exact absurd h (by simp)
  | some d =>
    rw [hf] at h
    injection h with h
    subst h
    have hq := List.find?_some hf
    apply land_pow_ne_zero_testBit
    have hz : bbIsEmpty (color_bitboards g d &&& from_square s) = false := by
      simpa using hq
    simpa [bbIsEmpty] using hz

theorem land_pow_ne_zero_of_testBit {b : Nat} {s : Square} (h : b.testBit s.val = true) :
    b &&& from_square s ≠ 0 := by
  intro h0
  have hbit := congrArg (fun x => Nat.testBit x s.val) h0
  simp only [Nat.testBit_land, Nat.zero_testBit, from_square_eq, Nat.testBit_two_pow_self,
    Bool.and_true, h] at hbit
  exact Bool.noConfusion hbit

theorem land_pow_eq_zero_of_testBit {b : Nat} {s : Square} (h : b.testBit s.val = false) :
    b &&& from_square s = 0 := by
  apply Nat.eq_of_testBit_eq
  intro i
  rw [Nat.testBit_land, from_square_eq, Nat.testBit_two_pow, Nat.zero_testBit]
  by_cases hi : s.val = i
  · subst hi
    rw [h]
    rfl
  · simp [hi]

theorem color_at_of_own {g : Game} (hg : Good g) {s : Square}
    (hs : (color_bitboards g g.to_move).testBit s.val = true) :
    color_at g s = .ok g.to_move := by
  unfold color_at
  dsimp only
  cases htm : g.to_move with
  | WHITE =>
    rw [htm] at hs
    have h1 : bbIsEmpty (color_bitboards g Color.WHITE &&& from_square s) = false := by
      simp only [bbIsEmpty, beq_eq_false_iff_ne, ne_eq]
      exact land_pow_ne_zero_of_testBit hs
    simp [List.find?, h1]
  | BLACK =>
    rw [htm] at hs
    have hw : (color_bitboards g Color.WHITE).testBit s.val = false :=
      disjoint_testBit (Nat.land_comm g.cbWhite g.cbBlack ▸ hg.cdisj) hs
    have h1 : bbIsEmpty (color_bitboards g Color.WHITE &&& from_square s) = true := by
      simp only [bbIsEmpty, beq_iff_eq]
      exact land_pow_eq_zero_of_testBit hw
    have h2 : bbIsEmpty (color_bitboards g Color.BLACK &&& from_square s) = false := by
      simp only [bbIsEmpty, beq_eq_false_iff_ne, ne_eq]
      exact land_pow_ne_zero_of_testBit hs
    simp [List.find?, h1, h2]

theorem colorBB_setPieceBB (g : Game) (p : Piece) (v : Nat) (d : Color) :
    color_bitboards (setPieceBB g p v) d = color_bitboards g d := by
  cases p <;> cases d <;> rfl

theorem pieceBB_setColorBB (g : Game) (c : Color) (v : Nat) (q : Piece) :
    piece_bitboards (setColorBB g c v) q = piece_bitboards g q := by
  cases c <;> cases q <;> rfl

theorem colorBB_setColorBB (g : Game) (c : Color) (v : Nat) (d : Color) :
    color_bitboards (setColorBB g c v) d = if d = c then v else color_bitboards g d := by
  cases c <;> cases d <;> simp [setColorBB, color_bitboards]

theorem pieceBB_setPieceBB (g : Game) (p : Piece) (v : Nat) (q : Piece) :
    piece_bitboards (setPieceBB g p v) q = if q = p then v else piece_bitboards g q := by
  cases p <;> cases q <;> simp [setPieceBB, piece_bitboards]

theorem ep_setColorBB (g : Game) (c : Color) (v : Nat) :
    (setColorBB g c v).en_passant_square = g.en_passant_square := by
  cases c <;> rfl

theorem ep_setPieceBB (g : Game) (p : Piece) (v : Nat) :
    (setPieceBB g p v).en_passant_square = g.en_passant_square := by
  cases p <;> rfl

theorem move_piece_colorBB (g : Game) (m : Move) (p : Piece) (c : Color) (d : Color) :
    color_bitboards (move_piece g m p c) d =
      if d = c then (color_bitboards g c ^^^ from_square m.start) ||| from_square m.stop
      else color_bitboards g d := by
  unfold move_piece
  rw [colorBB_setPieceBB, colorBB_setColorBB]

theorem move_piece_pieceBB (g : Game) (m : Move) (p : Piece) (c : Color) (q : Piece) :
    piece_bitboards (move_piece g m p c) q =
      if q = p then (piece_bitboards g p ^^^ from_square m.start) ||| from_square m.stop
      else piece_bitboards g q := by
  unfold move_piece
  rw [pieceBB_setPieceBB, pieceBB_setColorBB, pieceBB_setColorBB]

theorem move_piece_ep (g : Game) (m : Move) (p : Piece) (c : Color) :
    (move_piece g m p c).en_passant_square = g.en_passant_square := by
  unfold move_piece
  rw [ep_setPieceBB, ep_setColorBB]

theorem testBit_pieceUnion (g : Game) (i : Nat) :
    (pieceUnion g).testBit i =
      ((piece_bitboards g Piece.PAWN).testBit i || (piece_bitboards g Piece.KNIGHT).testBit i ||
       (piece_bitboards g Piece.BISHOP).testBit i || (piece_bitboards g Piece.ROOK).testBit i ||
       (piece_bitboards g Piece.QUEEN).testBit i || (piece_bitboards g Piece.KING).testBit i) := by
  unfold pieceUnion piece_bitboards
  rw [Nat.testBit_lor, Nat.testBit_lor, Nat.testBit_lor, Nat.testBit_lor, Nat.testBit_lor]

/-- Transfer of `Good` along pointwise equality of the bitboard and
en-passant fields. -/
theorem good_transfer {g h : Game}
    (hC : ∀ d, color_bitboards h d = color_bitboards g d)
    (hP : ∀ q, piece_bitboards h q = piece_bitboards g q)
    (hep : h.en_passant_square = g.en_passant_square)
    (hg : Good g) : Good h := by
  have hW : h.cbWhite = g.cbWhite := hC Color.WHITE
  have hB : h.cbBlack = g.cbBlack := hC Color.BLACK
  have hU : pieceUnion h = pieceUnion g := by
    unfold pieceUnion
    have h0 : h.pbPawn = g.pbPawn := hP Piece.PAWN
    have h1 : h.pbKnight = g.pbKnight := hP Piece.KNIGHT
    have h2 : h.pbBishop = g.pbBishop := hP Piece.BISHOP
    have h3 : h.pbRook = g.pbRook := hP Piece.ROOK
    have h4 : h.pbQueen = g.pbQueen := hP Piece.QUEEN
    have h5 : h.pbKing = g.pbKing := hP Piece.KING
    rw [h0, h1, h2, h3, h4, h5]
  exact {
    wfW := hW ▸ hg.wfW
    wfB := hB ▸ hg.wfB
    wfP := fun p => hP p ▸ hg.wfP p
    cdisj := by rw [hW, hB]; exact hg.cdisj
    pdisj := fun p q hpq => by rw [hP p, hP q]; exact hg.pdisj p q hpq
    ueq := by rw [hW, hB, hU]; exact hg.ueq
    epn := by rw [hep]; exact hg.epn
    k1 := fun c => by rw [hC c, hP Piece.KING]; exact hg.k1 c }

/-- The clock/turn tail of `make_move` leaves the bitboards and the
en-passant field of `move_piece`'s result untouched. -/
theorem make_move_tail_fields (gc : Game) (m : Move) (p : Piece) (c : Color) (cap : Bool)
    (g2 : Game)
    (h : (let g3 := move_piece gc m p c
          let g4 := if p = Piece.PAWN ∨ cap = true then { g3 with halfmove_clock := 0 }
            else { g3 with halfmove_clock := g3.halfmove_clock + 1 }
          let g5 := if g4.to_move = Color.BLACK then { g4 with fullmove_clock := g4.fullmove_clock + 1 }
            else g4
          PRes.ok { g5 with to_move := g5.to_move.flip }) = PRes.ok g2) :
    (∀ d, color_bitboards g2 d = color_bitboards (move_piece gc m p c) d) ∧
    (∀ q, piece_bitboards g2 q = piece_bitboards (move_piece gc m p c) q) ∧
    g2.en_passant_square = (move_piece gc m p c).en_passant_square := by
  injection h with h
  subst h
  by_cases hpc : p = Piece.PAWN ∨ cap = true <;>
    refine ⟨fun d => ?_, fun q => ?_, ?_⟩ <;>
    first
      | (cases d <;> simp [hpc, color_bitboards] <;> split <;> rfl)
      | (cases q <;> simp [hpc, piece_bitboards] <;> split <;> rfl)
      | (simp [hpc] <;> split <;> rfl)

theorem land_zero_pointwise {a b : Nat} (h : a &&& b = 0) (i : Nat) :
    (a.testBit i && b.testBit i) = false := by
  have hx := congrArg (fun x => Nat.testBit x i) h
  simpa [Nat.testBit_land] using hx

theorem pieces_empty_at {g : Game} (hg : Good g) {j : Nat}
    (hW : g.cbWhite.testBit j = false) (hB : g.cbBlack.testBit j = false) :
    ∀ q : Piece, (piece_bitboards g q).testBit j = false := by
  have hu : (pieceUnion g).testBit j = false := by
    rw [← hg.ueq, Nat.testBit_lor, hW, hB]
    rfl
  rw [testBit_pieceUnion] at hu
  simp only [Bool.or_eq_false_iff] at hu
  intro q
  cases q
  · exact hu.1.1.1.1.1
  · exact hu.1.1.1.1.2
  · exact hu.1.1.1.2
  · exact hu.1.1.2
  · exact hu.1.2
  · exact hu.2

theorem from_square_lt (s : Square) : from_square s < 2 ^ 64 := by
  rw [from_square_eq]
  exact Nat.pow_lt_pow_right (by norm_num) s.isLt

theorem atMostOne_subset {bold bnew : Nat}
    (hc : ∀ i, bnew.testBit i = true → bold.testBit i = true)
    (h1 : AtMostOne bold) : AtMostOne bnew :=
  fun i j hi hj => h1 i j (hc i hi) (hc j hj)

theorem atMostOne_relocate {bold bnew : Nat} {a e : Nat}
    (h1 : AtMostOne bold) (ha : bold.testBit a = true)
    (hc : ∀ i, bnew.testBit i = true → i = e ∨ (i ≠ a ∧ bold.testBit i = true)) :
    AtMostOne bnew := by
  intro i j hi hj
  rcases hc i hi with hie | ⟨hia, hoi⟩ <;> rcases hc j hj with hje | ⟨hja, hoj⟩
  · rw [hie, hje]
  · exact absurd (h1 j a hoj ha) hja
  · exact absurd (h1 i a hoi ha) hia
  · exact h1 i j hoi hoj

/-- Core invariant preservation of `move_piece`: relocating a piece of kind
`p` and color `c` from an occupied start square to a fully empty
destination keeps `Good`. -/
theorem move_piece_good {g : Game} {m : Move} {p : Piece} {c : Color}
    (hg : Good g)
    (hsc : (color_bitboards g c).testBit m.start.val = true)
    (hsp : (piece_bitboards g p).testBit m.start.val = true)
    (heW : (color_bitboards g Color.WHITE).testBit m.stop.val = false)
    (heB : (color_bitboards g Color.BLACK).testBit m.stop.val = false) :
    Good (move_piece g m p c) := by
  have heC : ∀ d, (color_bitboards g d).testBit m.stop.val = false := by
    intro d
    cases d
    · exact heW
    · exact heB
  have hPe : ∀ q, (piece_bitboards g q).testBit m.stop.val = false :=
    pieces_empty_at hg heW heB
  have hae : m.start.val ≠ m.stop.val := by
    intro h
    rw [h, heC c] at hsc
    exact Bool.noConfusion hsc
  have hPa : ∀ q, q ≠ p → (piece_bitboards g q).testBit m.start.val = false := fun q hq =>
    disjoint_testBit (hg.pdisj p q (fun h => hq h.symm)) hsp
  have hCa : ∀ d, d ≠ c → (color_bitboards g d).testBit m.start.val = false := by
    intro d hd
    cases c with
    | WHITE =>
      cases d with
      | WHITE => exact absurd rfl hd
      | BLACK => exact disjoint_testBit hg.cdisj hsc
    | BLACK =>
      cases d with
      | WHITE => exact disjoint_testBit (by rw [Nat.land_comm]; exact hg.cdisj) hsc
      | BLACK => exact absurd rfl hd
  have hcd : ∀ i, ((color_bitboards g Color.WHITE).testBit i &&
      (color_bitboards g Color.BLACK).testBit i) = false := fun i =>
    land_zero_pointwise hg.cdisj i
  have hpd : ∀ (p0 q0 : Piece), p0 ≠ q0 → ∀ i, ((piece_bitboards g p0).testBit i &&
      (piece_bitboards g q0).testBit i) = false := fun p0 q0 h i =>
    land_zero_pointwise (hg.pdisj p0 q0 h) i
  have hue : ∀ i, ((color_bitboards g Color.WHITE).testBit i ||
      (color_bitboards g Color.BLACK).testBit i) =
      ((piece_bitboards g Piece.PAWN).testBit i || (piece_bitboards g Piece.KNIGHT).testBit i ||
       (piece_bitboards g Piece.BISHOP).testBit i || (piece_bitboards g Piece.ROOK).testBit i ||
       (piece_bitboards g Piece.QUEEN).testBit i || (piece_bitboards g Piece.KING).testBit i) := by
    intro i
    have hx := congrArg (fun x => Nat.testBit x i) hg.ueq
    simp only [Nat.testBit_lor] at hx
    rw [testBit_pieceUnion] at hx
    exact hx
  have hCF : ∀ d i, (color_bitboards (move_piece g m p c) d).testBit i =
      (if d = c then
        (((color_bitboards g c).testBit i).xor (decide (m.start.val = i)) ||
          decide (m.stop.val = i))
      else (color_bitboards g d).testBit i) := by
    intro d i
    rw [move_piece_colorBB]
    by_cases hdc : d = c
    · rw [if_pos hdc, if_pos hdc, testBit_update]
    · rw [if_neg hdc, if_neg hdc]
  have hPF : ∀ q i, (piece_bitboards (move_piece g m p c) q).testBit i =
      (if q = p then
        (((piece_bitboards g p).testBit i).xor (decide (m.start.val = i)) ||
          decide (m.stop.val = i))
      else (piece_bitboards g q).testBit i) := by
    intro q i
    rw [move_piece_pieceBB]
    by_cases hqp : q = p
    · rw [if_pos hqp, if_pos hqp, testBit_update]
    · rw [if_neg hqp, if_neg hqp]
  have hgc0 : ∀ d0, color_bitboards g d0 < 2 ^ 64 := by
    intro d0
    cases d0
    · exact hg.wfW
    · exact hg.wfB
  have hwfC : ∀ d, color_bitboards (move_piece g m p c) d < 2 ^ 64 := by
    intro d
    rw [move_piece_colorBB]
    by_cases hdc : d = c
    · rw [if_pos hdc]
      exact lor_lt (Nat.xor_lt_two_pow (hgc0 c) (from_square_lt m.start)) (from_square_lt m.stop)
    · rw [if_neg hdc]
      exact hgc0 d
  have hwfP : ∀ q, piece_bitboards (move_piece g m p c) q < 2 ^ 64 := by
    intro q
    rw [move_piece_pieceBB]
    by_cases hqp : q = p
    · rw [if_pos hqp]
      exact lor_lt (Nat.xor_lt_two_pow (hg.wfP p) (from_square_lt m.start)) (from_square_lt m.stop)
    · rw [if_neg hqp]
      exact hg.wfP q
  refine {
    wfW := hwfC Color.WHITE, wfB := hwfC Color.BLACK, wfP := hwfP,
    cdisj := ?cdisj, pdisj := ?pdisj, ueq := ?ueq, epn := ?epn, k1 := ?k1 }
  case epn =>
    rw [move_piece_ep]
    exact hg.epn
  case cdisj =>
    apply Nat.eq_of_testBit_eq
    intro i
    rw [Nat.testBit_land, Nat.zero_testBit,
      show (move_piece g m p c).cbWhite = color_bitboards (move_piece g m p c) Color.WHITE
        from rfl,
      show (move_piece g m p c).cbBlack = color_bitboards (move_piece g m p c) Color.BLACK
        from rfl, hCF Color.WHITE i, hCF Color.BLACK i]
    by_cases hie : m.stop.val = i
    · subst hie
      have hL : ∀ d : Color,
          (if d = c then
            (((color_bitboards g c).testBit m.stop.val).xor (decide (m.start.val = m.stop.val)) ||
              decide (m.stop.val = m.stop.val))
          else (color_bitboards g d).testBit m.stop.val) = decide (d = c) := by
        intro d
        by_cases hdc : d = c
        · rw [if_pos hdc]
          simp [hdc]
        · rw [if_neg hdc, heC d]
          simp [hdc]
      rw [hL Color.WHITE, hL Color.BLACK]
      cases c <;> rfl
    · by_cases hia : m.start.val = i
      · subst hia
        have hL : ∀ d : Color,
            (if d = c then
              (((color_bitboards g c).testBit m.start.val).xor (decide (m.start.val = m.start.val)) ||
                decide (m.stop.val = m.start.val))
            else (color_bitboards g d).testBit m.start.val) = false := by
          intro d
          by_cases hdc : d = c
          · rw [if_pos hdc, hsc]
            simp [decide_eq_false (fun h => hae h.symm : ¬m.stop.val = m.start.val)]
          · rw [if_neg hdc]
            exact hCa d hdc
        rw [hL Color.WHITE, hL Color.BLACK]
        rfl
      · have hL : ∀ d : Color,
            (if d = c then
              (((color_bitboards g c).testBit i).xor (decide (m.start.val = i)) ||
                decide (m.stop.val = i))
            else (color_bitboards g d).testBit i) = (color_bitboards g d).testBit i := by
          intro d
          by_cases hdc : d = c
          · rw [if_pos hdc, hdc]
            simp [decide_eq_false hia, decide_eq_false hie]
          · rw [if_neg hdc]
        rw [hL Color.WHITE, hL Color.BLACK]
        exact hcd i
  case pdisj =>
    intro p0 q0 hne
    apply Nat.eq_of_testBit_eq
    intro i
    rw [Nat.testBit_land, Nat.zero_testBit, hPF p0 i, hPF q0 i]
    by_cases hp0 : p0 = p <;> by_cases hq0 : q0 = p
    · exact absurd (hp0.trans hq0.symm) hne
    · rw [if_pos hp0, if_neg hq0]
      by_cases hie : m.stop.val = i
      · subst hie
        rw [hPe q0]
        simp
      · by_cases hia : m.start.val = i
        · subst hia
          rw [hsp]
          simp [decide_eq_false hie]
        · simp only [decide_eq_false hia, decide_eq_false hie, Bool.xor_false, Bool.or_false]
          exact hpd p q0 (fun h => hne (hp0.trans h)) i
    · rw [if_neg hp0, if_pos hq0]
      by_cases hie : m.stop.val = i
      · subst hie
        rw [hPe p0]
        simp
      · by_cases hia : m.start.val = i
        · subst hia
          rw [hPa p0 hp0]
          simp
        · simp only [decide_eq_false hia, decide_eq_false hie, Bool.xor_false, Bool.or_false]
          exact hpd p0 p hp0 i
    · rw [if_neg hp0, if_neg hq0]
      exact hpd p0 q0 hne i
  case ueq =>
    apply Nat.eq_of_testBit_eq
    intro i
    rw [Nat.testBit_lor,
      show (move_piece g m p c).cbWhite = color_bitboards (move_piece g m p c) Color.WHITE
        from rfl,
      show (move_piece g m p c).cbBlack = color_bitboards (move_piece g m p c) Color.BLACK
        from rfl,
      hCF Color.WHITE i, hCF Color.BLACK i, testBit_pieceUnion,
      hPF Piece.PAWN i, hPF Piece.KNIGHT i, hPF Piece.BISHOP i, hPF Piece.ROOK i,
      hPF Piece.QUEEN i, hPF Piece.KING i]
    by_cases hie : m.stop.val = i
    · subst hie
      have hL : ∀ d : Color,
          (if d = c then
            (((color_bitboards g c).testBit m.stop.val).xor (decide (m.start.val = m.stop.val)) ||
              decide (m.stop.val = m.stop.val))
          else (color_bitboards g d).testBit m.stop.val) = decide (d = c) := by
        intro d
        by_cases hdc : d = c
        · rw [if_pos hdc]
          simp [hdc]
        · rw [if_neg hdc, heC d]
          simp [hdc]
      have hR : ∀ q : Piece,
          (if q = p then
            (((piece_bitboards g p).testBit m.stop.val).xor (decide (m.start.val = m.stop.val)) ||
              decide (m.stop.val = m.stop.val))
          else (piece_bitboards g q).testBit m.stop.val) = decide (q = p) := by
        intro q
        by_cases hqp : q = p
        · rw [if_pos hqp]
          simp [hqp]
        · rw [if_neg hqp, hPe q]
          simp [hqp]
      rw [hL Color.WHITE, hL Color.BLACK, hR Piece.PAWN, hR Piece.KNIGHT, hR Piece.BISHOP,
        hR Piece.ROOK, hR Piece.QUEEN, hR Piece.KING]
      cases c <;> cases p <;> rfl
    · by_cases hia : m.start.val = i
      · subst hia
        have hL : ∀ d : Color,
            (if d = c then
              (((color_bitboards g c).testBit m.start.val).xor (decide (m.start.val = m.start.val)) ||
                decide (m.stop.val = m.start.val))
            else (color_bitboards g d).testBit m.start.val) = false := by
          intro d
          by_cases hdc : d = c
          · rw [if_pos hdc, hsc]
            simp [decide_eq_false (fun h => hae h.symm : ¬m.stop.val = m.start.val)]
          · rw [if_neg hdc]
            exact hCa d hdc
        have hR : ∀ q : Piece,
            (if q = p then
              (((piece_bitboards g p).testBit m.start.val).xor (decide (m.start.val = m.start.val)) ||
                decide (m.stop.val = m.start.val))
            else (piece_bitboards g q).testBit m.start.val) = false := by
          intro q
          by_cases hqp : q = p
          · rw [if_pos hqp, hsp]
            simp [decide_eq_false (fun h => hae h.symm : ¬m.stop.val = m.start.val)]
          · rw [if_neg hqp]
            exact hPa q hqp
        rw [hL Color.WHITE, hL Color.BLACK, hR Piece.PAWN, hR Piece.KNIGHT, hR Piece.BISHOP,
          hR Piece.ROOK, hR Piece.QUEEN, hR Piece.KING]
        rfl
      · have hL : ∀ d : Color,
            (if d = c then
              (((color_bitboards g c).testBit i).xor (decide (m.start.val = i)) ||
                decide (m.stop.val = i))
            else (color_bitboards g d).testBit i) = (color_bitboards g d).testBit i := by
          intro d
          by_cases hdc : d = c
          · rw [if_pos hdc, hdc]
            simp [decide_eq_false hia, decide_eq_false hie]
          · rw [if_neg hdc]
        have hR : ∀ q : Piece,
            (if q = p then
              (((piece_bitboards g p).testBit i).xor (decide (m.start.val = i)) ||
                decide (m.stop.val = i))
            else (piece_bitboards g q).testBit i) = (piece_bitboards g q).testBit i := by
          intro q
          by_cases hqp : q = p
          · rw [if_pos hqp, hqp]
            simp [decide_eq_false hia, decide_eq_false hie]
          · rw [if_neg hqp]
        rw [hL Color.WHITE, hL Color.BLACK, hR Piece.PAWN, hR Piece.KNIGHT, hR Piece.BISHOP,
          hR Piece.ROOK, hR Piece.QUEEN, hR Piece.KING]
        exact hue i
  case k1 =>
    intro d
    by_cases hdc : d = c <;> by_cases hpk : Piece.KING = p
    · subst hdc
      apply atMostOne_relocate (hg.k1 d) (a := m.start.val) (e := m.stop.val)
        (show (color_bitboards g d &&& piece_bitboards g Piece.KING).testBit m.start.val = true by
          rw [Nat.testBit_land, hsc, hpk, hsp]
          rfl)
      intro i hi
      rw [Nat.testBit_land, hCF d i, hPF Piece.KING i, if_pos rfl, if_pos hpk,
        Bool.and_eq_true] at hi
      obtain ⟨h1, h2⟩ := hi
      by_cases hie : m.stop.val = i
      · exact Or.inl hie.symm
      · right
        by_cases hia : m.start.val = i
        · exfalso
          rw [← hia, hsc] at h1
          rw [decide_eq_false (fun h => hae h.symm : ¬m.stop.val = m.start.val)] at h1
          simp at h1
        · refine ⟨fun h => hia h.symm, ?_⟩
          rw [decide_eq_false hia, decide_eq_false hie, Bool.xor_false, Bool.or_false] at h1 h2
          rw [Nat.testBit_land, h1, hpk, h2]
          rfl
    · subst hdc
      apply atMostOne_subset _ (hg.k1 d)
      intro i hi
      rw [Nat.testBit_land, hCF d i, hPF Piece.KING i, if_pos rfl,
        if_neg hpk, Bool.and_eq_true] at hi
      obtain ⟨h1, h2⟩ := hi
      rw [Nat.testBit_land]
      by_cases hie : m.stop.val = i
      · rw [← hie, hPe Piece.KING] at h2
        exact Bool.noConfusion h2
      · by_cases hia : m.start.val = i
        · rw [← hia, hPa Piece.KING hpk] at h2
          exact Bool.noConfusion h2
        · rw [decide_eq_false hia, decide_eq_false hie, Bool.xor_false, Bool.or_false] at h1
          rw [h1, h2]
          rfl
    · apply atMostOne_subset _ (hg.k1 d)
      intro i hi
      rw [Nat.testBit_land, hCF d i, hPF Piece.KING i, if_neg hdc, if_pos hpk,
        Bool.and_eq_true] at hi
      obtain ⟨h1, h2⟩ := hi
      rw [Nat.testBit_land]
      by_cases hie : m.stop.val = i
      · rw [← hie, heC d] at h1
        exact Bool.noConfusion h1
      · by_cases hia : m.start.val = i
        · rw [← hia, hCa d hdc] at h1
          exact Bool.noConfusion h1
        · rw [decide_eq_false hia, decide_eq_false hie, Bool.xor_false, Bool.or_false] at h2
          rw [h1, hpk, h2]
          rfl
    · have hx : color_bitboards (move_piece g m p c) d &&&
          piece_bitboards (move_piece g m p c) Piece.KING =
          color_bitboards g d &&& piece_bitboards g Piece.KING := by
        rw [move_piece_colorBB, move_piece_pieceBB, if_neg hdc,
          if_neg hpk]
      rw [hx]
      exact hg.k1 d

theorem remove_rights_cb (g : Game) (s : Square) (q : Piece) (c0 : Color) (d : Color) :
    color_bitboards
      (if q = Piece.ROOK then
        if s = sqA1 ∧ c0 = Color.WHITE then
          { g with castling_rights := g.castling_rights &&& u8Not CR_WHITE_QUEENSIDE }
        else if s = sqH1 ∧ c0 = Color.WHITE then
          { g with castling_rights := g.castling_rights &&& u8Not CR_WHITE_KINGSIDE }
        else if s = sqA8 ∧ c0 = Color.BLACK then
          { g with castling_rights := g.castling_rights &&& u8Not CR_BLACK_QUEENSIDE }
        else if s = sqH8 ∧ c0 = Color.BLACK then
          { g with castling_rights := g.castling_rights &&& u8Not CR_BLACK_KINGSIDE }
        else g
      else g) d = color_bitboards g d := by
  split_ifs <;> cases d <;> rfl

theorem remove_rights_pb (g : Game) (s : Square) (q : Piece) (c0 : Color) (r : Piece) :
    piece_bitboards
      (if q = Piece.ROOK then
        if s = sqA1 ∧ c0 = Color.WHITE then
          { g with castling_rights := g.castling_rights &&& u8Not CR_WHITE_QUEENSIDE }
        else if s = sqH1 ∧ c0 = Color.WHITE then
          { g with castling_rights := g.castling_rights &&& u8Not CR_WHITE_KINGSIDE }
        else if s = sqA8 ∧ c0 = Color.BLACK then
          { g with castling_rights := g.castling_rights &&& u8Not CR_BLACK_QUEENSIDE }
        else if s = sqH8 ∧ c0 = Color.BLACK then
          { g with castling_rights := g.castling_rights &&& u8Not CR_BLACK_KINGSIDE }
        else g
      else g) r = piece_bitboards g r := by
  split_ifs <;> cases r <;> rfl

theorem remove_rights_ep (g : Game) (s : Square) (q : Piece) (c0 : Color) :
    (if q = Piece.ROOK then
        if s = sqA1 ∧ c0 = Color.WHITE then
          { g with castling_rights := g.castling_rights &&& u8Not CR_WHITE_QUEENSIDE }
        else if s = sqH1 ∧ c0 = Color.WHITE then
          { g with castling_rights := g.castling_rights &&& u8Not CR_WHITE_KINGSIDE }
        else if s = sqA8 ∧ c0 = Color.BLACK then
          { g with castling_rights := g.castling_rights &&& u8Not CR_BLACK_QUEENSIDE }
        else if s = sqH8 ∧ c0 = Color.BLACK then
          { g with castling_rights := g.castling_rights &&& u8Not CR_BLACK_KINGSIDE }
        else g
      else g).en_passant_square = g.en_passant_square := by
  split_ifs <;> rfl

theorem remove_piece_fields {g : Game} {s : Square} {q : Piece} {g2 : Game} {c0 : Color}
    (hc0 : color_at g s = .ok c0)
    (h : remove_piece g s q = .ok g2) :
    (∀ d, color_bitboards g2 d =
      if d = c0 then color_bitboards g c0 ^^^ from_square s else color_bitboards g d) ∧
    (∀ r, piece_bitboards g2 r =
      if r = q then piece_bitboards g q ^^^ from_square s else piece_bitboards g r) ∧
    g2.en_passant_square = g.en_passant_square := by
  unfold remove_piece at h
  rw [hc0, PRes.ok_bind] at h
  try dsimp only at h
  injection h with h
  subst h
  refine ⟨fun d => ?_, fun r => ?_, ?_⟩
  · rw [colorBB_setPieceBB, colorBB_setColorBB, remove_rights_cb g s q c0 c0,
      remove_rights_cb g s q c0 d]
  · rw [pieceBB_setPieceBB, pieceBB_setColorBB, pieceBB_setColorBB,
      remove_rights_pb g s q c0 q, remove_rights_pb g s q c0 r]
  · rw [ep_setPieceBB, ep_setColorBB, remove_rights_ep g s q c0]

/-- Removing the piece of kind `q` standing on `s` preserves `Good` and
empties `s`. -/
theorem remove_piece_good {g : Game} {s : Square} {q : Piece} {g2 : Game}
    (hg : Good g)
    (hq : (piece_bitboards g q).testBit s.val = true)
    (h : remove_piece g s q = .ok g2) :
    Good g2 ∧ (∀ d, (color_bitboards g2 d).testBit s.val = false) ∧
    (∀ d i, i ≠ s.val → (color_bitboards g2 d).testBit i = (color_bitboards g d).testBit i) ∧
    (∀ r i, i ≠ s.val → (piece_bitboards g2 r).testBit i = (piece_bitboards g r).testBit i) := by
  have hbind : ∃ c0, color_at g s = .ok c0 := by
    unfold remove_piece at h
    obtain ⟨c0, hc0, _⟩ := PRes.bind_ok h
    exact ⟨c0, hc0⟩
  obtain ⟨c0, hc0⟩ := hbind
  have hsc0 : (color_bitboards g c0).testBit s.val = true := color_at_ok_testBit hc0
  obtain ⟨hC, hP, hep⟩ := remove_piece_fields hc0 h
  have hPa : ∀ r, r ≠ q → (piece_bitboards g r).testBit s.val = false := fun r hr =>
    disjoint_testBit (hg.pdisj q r (fun hx => hr hx.symm)) hq
  have hCa : ∀ d, d ≠ c0 → (color_bitboards g d).testBit s.val = false := by
    intro d hd
    cases c0 with
    | WHITE =>
      cases d with
      | WHITE => exact absurd rfl hd
      | BLACK => exact disjoint_testBit hg.cdisj hsc0
    | BLACK =>
      cases d with
      | WHITE => exact disjoint_testBit (by rw [Nat.land_comm]; exact hg.cdisj) hsc0
      | BLACK => exact absurd rfl hd
  have hgc0 : ∀ d0, color_bitboards g d0 < 2 ^ 64 := by
    intro d0
    cases d0
    · exact hg.wfW
    · exact hg.wfB
  have hCt : ∀ d i, (color_bitboards g2 d).testBit i =
      (if d = c0 then ((color_bitboards g c0).testBit i).xor (decide (s.val = i))
       else (color_bitboards g d).testBit i) := by
    intro d i
    rw [hC d]
    by_cases hdc : d = c0
    · rw [if_pos hdc, if_pos hdc, Nat.testBit_xor, from_square_eq, Nat.testBit_two_pow]
    · rw [if_neg hdc, if_neg hdc]
  have hPt : ∀ r i, (piece_bitboards g2 r).testBit i =
      (if r = q then ((piece_bitboards g q).testBit i).xor (decide (s.val = i))
       else (piece_bitboards g r).testBit i) := by
    intro r i
    rw [hP r]
    by_cases hrq : r = q
    · rw [if_pos hrq, if_pos hrq, Nat.testBit_xor, from_square_eq, Nat.testBit_two_pow]
    · rw [if_neg hrq, if_neg hrq]
  have hCs : ∀ d, (color_bitboards g2 d).testBit s.val = false := by
    intro d
    rw [hCt d s.val]
    by_cases hdc : d = c0
    · rw [if_pos hdc, hsc0]
      simp
    · rw [if_neg hdc]
      exact hCa d hdc
  have hPs : ∀ r, (piece_bitboards g2 r).testBit s.val = false := by
    intro r
    rw [hPt r s.val]
    by_cases hrq : r = q
    · rw [if_pos hrq, hq]
      simp
    · rw [if_neg hrq]
      exact hPa r hrq
  have hCo : ∀ d i, i ≠ s.val → (color_bitboards g2 d).testBit i =
      (color_bitboards g d).testBit i := by
    intro d i hi
    rw [hCt d i]
    by_cases hdc : d = c0
    · rw [if_pos hdc, hdc]
      simp [decide_eq_false (fun hx => hi hx.symm : ¬s.val = i)]
    · rw [if_neg hdc]
  have hPo : ∀ r i, i ≠ s.val → (piece_bitboards g2 r).testBit i =
      (piece_bitboards g r).testBit i := by
    intro r i hi
    rw [hPt r i]
    by_cases hrq : r = q
    · rw [if_pos hrq, hrq]
      simp [decide_eq_false (fun hx => hi hx.symm : ¬s.val = i)]
    · rw [if_neg hrq]
  refine ⟨?_, hCs, hCo, hPo⟩
  refine {
    wfW := ?_, wfB := ?_, wfP := ?_, cdisj := ?cdisj, pdisj := ?pdisj, ueq := ?ueq,
    epn := ?epn, k1 := ?k1 }
  · show color_bitboards g2 Color.WHITE < 2 ^ 64
    rw [hC Color.WHITE]
    split
    · next hd => exact Nat.xor_lt_two_pow (hgc0 c0) (from_square_lt s)
    · exact hgc0 Color.WHITE
  · show color_bitboards g2 Color.BLACK < 2 ^ 64
    rw [hC Color.BLACK]
    split
    · next hd => exact Nat.xor_lt_two_pow (hgc0 c0) (from_square_lt s)
    · exact hgc0 Color.BLACK
  · intro r
    rw [hP r]
    split
    · next hd => exact Nat.xor_lt_two_pow (hg.wfP q) (from_square_lt s)
    · exact hg.wfP r
  case cdisj =>
    apply Nat.eq_of_testBit_eq
    intro i
    rw [Nat.testBit_land, Nat.zero_testBit,
      show g2.cbWhite = color_bitboards g2 Color.WHITE from rfl,
      show g2.cbBlack = color_bitboards g2 Color.BLACK from rfl]
    by_cases his : i = s.val
    · subst his
      rw [hCs Color.WHITE]
      rfl
    · rw [hCo Color.WHITE i his, hCo Color.BLACK i his]
      exact land_zero_pointwise hg.cdisj i
  case pdisj =>
    intro p0 q0 hne
    apply Nat.eq_of_testBit_eq
    intro i
    rw [Nat.testBit_land, Nat.zero_testBit]
    by_cases his : i = s.val
    · subst his
      rw [hPs p0]
      rfl
    · rw [hPo p0 i his, hPo q0 i his]
      exact land_zero_pointwise (hg.pdisj p0 q0 hne) i
  case ueq =>
    apply Nat.eq_of_testBit_eq
    intro i
    rw [Nat.testBit_lor,
      show g2.cbWhite = color_bitboards g2 Color.WHITE from rfl,
      show g2.cbBlack = color_bitboards g2 Color.BLACK from rfl, testBit_pieceUnion]
    by_cases his : i = s.val
    · subst his
      rw [hCs Color.WHITE, hCs Color.BLACK, hPs Piece.PAWN, hPs Piece.KNIGHT, hPs Piece.BISHOP,
        hPs Piece.ROOK, hPs Piece.QUEEN, hPs Piece.KING]
      rfl
    · rw [hCo Color.WHITE i his, hCo Color.BLACK i his, hPo Piece.PAWN i his,
        hPo Piece.KNIGHT i his, hPo Piece.BISHOP i his, hPo Piece.ROOK i his,
        hPo Piece.QUEEN i his, hPo Piece.KING i his]
      have hx := congrArg (fun x => Nat.testBit x i) hg.ueq
      simp only [Nat.testBit_lor] at hx
      rw [testBit_pieceUnion] at hx
      exact hx
  case epn =>
    rw [hep]
    exact hg.epn
  case k1 =>
    intro d
    apply atMostOne_subset _ (hg.k1 d)
    intro i hi
    rw [Nat.testBit_land, Bool.and_eq_true] at hi
    obtain ⟨h1, h2⟩ := hi
    rw [Nat.testBit_land]
    by_cases his : i = s.val
    · subst his
      rw [hCs d] at h1
      exact Bool.noConfusion h1
    · rw [hCo d i his] at h1
      rw [hPo Piece.KING i his] at h2
      rw [h1, h2]
      rfl

theorem squareFromU8_ok {v : Nat} {s : Square} (h : squareFromU8 v = .ok s) : s.val = v := by
  unfold squareFromU8 at h
  split at h
  · injection h with h
    subst h
    rfl
  · exact PRes.noConfusion h

theorem trailing_zeros_two_pow {k : Nat} (hk : k < 64) : trailing_zeros (2 ^ k) = k := by
  have hne : (2 : Nat) ^ k ≠ 0 := (Nat.two_pow_pos k).ne'
  have hlt : (2 : Nat) ^ k < 2 ^ 64 := Nat.pow_lt_pow_right (by norm_num) hk
  obtain ⟨h1, _⟩ := tzAux_spec 64 (2 ^ k) hne hlt
  rw [Nat.testBit_two_pow] at h1
  exact (of_decide_eq_true h1).symm

theorem atMostOne_two_pow (k : Nat) : AtMostOne (2 ^ k) := by
  intro i j hi hj
  rw [Nat.testBit_two_pow] at hi hj
  have hi2 := of_decide_eq_true hi
  have hj2 := of_decide_eq_true hj
  omega

theorem good_cb_lt {g : Game} (hg : Good g) (c : Color) : color_bitboards g c < 2 ^ 64 := by
  cases c
  · exact hg.wfW
  · exact hg.wfB

theorem mapStops_mem {s : Square} :
    ∀ {js : List Nat} {ms : List Move}, mapStops s js = .ok ms →
      ∀ {m : Move}, m ∈ ms → m.start = s ∧ m.stop.val ∈ js := by
  intro js
  induction js with
  | nil =>
    intro ms h m hm
    unfold mapStops at h
    injection h with h
    subst h
    exact absurd hm (List.not_mem_nil m)
  | cons j r ih =>
    intro ms h m hm
    unfold mapStops at h
    obtain ⟨e, he, h⟩ := PRes.bind_ok h
    obtain ⟨ms2, hms2, h⟩ := PRes.bind_ok h
    injection h with h
    subst h
    rcases List.mem_cons.mp hm with hh | ht
    · subst hh
      exact ⟨rfl, by rw [squareFromU8_ok he]; exact List.mem_cons_self j r⟩
    · obtain ⟨h1, h2⟩ := ih hms2 ht
      exact ⟨h1, List.mem_cons_of_mem j h2⟩

theorem genMovesAt_mem {g : Game} {i : Nat} {ms : List Move}
    (h : genMovesAt g i = .ok ms) {m : Move} (hm : m ∈ ms) :
    ∃ s p bb, squareFromU8 i = .ok s ∧ type_at g s = .ok p ∧
      (match p with
       | Piece.ROOK | Piece.BISHOP | Piece.QUEEN => slider_moves g s
       | Piece.PAWN => pawn_moves g s
       | Piece.KNIGHT => knight_moves g s
       | Piece.KING => king_moves g g.to_move) = .ok bb ∧
      m.start = s ∧ m.stop.val ∈ bitIndices bb := by
  unfold genMovesAt at h
  obtain ⟨s, hs, h⟩ := PRes.bind_ok h
  obtain ⟨p, hp, h⟩ := PRes.bind_ok h
  obtain ⟨bb, hbb, h⟩ := PRes.bind_ok h
  obtain ⟨h1, h2⟩ := mapStops_mem h hm
  exact ⟨s, p, bb, hs, hp, hbb, h1, h2⟩

theorem pseudoAux_mem {g : Game} :
    ∀ {is : List Nat} {acc L : List Move}, pseudoAux g is acc = .ok L →
      ∀ {m : Move}, m ∈ L →
        m ∈ acc ∨ ∃ i, i ∈ is ∧ ∃ ms, genMovesAt g i = .ok ms ∧ m ∈ ms := by
  intro is
  induction is with
  | nil =>
    intro acc L h m hm
    unfold pseudoAux at h
    injection h with h
    subst h
    exact Or.inl hm
  | cons i r ih =>
    intro acc L h m hm
    unfold pseudoAux at h
    obtain ⟨ms0, hms0, h⟩ := PRes.bind_ok h
    rcases ih h hm with hacc | ⟨i2, hi2, ms2, hms2, hm2⟩
    · rcases List.mem_append.mp hacc with ha | hb
      · exact Or.inl ha
      · exact Or.inr ⟨i, List.mem_cons_self i r, ms0, hms0, hb⟩
    · exact Or.inr ⟨i2, List.mem_cons_of_mem i hi2, ms2, hms2, hm2⟩

theorem retainAux_mem {g : Game} {c : Color} :
    ∀ {l L : List Move}, retainAux g c l = .ok L → ∀ {m : Move}, m ∈ L → m ∈ l := by
  intro l
  induction l with
  | nil =>
    intro L h m hm
    unfold retainAux at h
    injection h with h
    subst h
    exact absurd hm (List.not_mem_nil m)
  | cons m0 r ih =>
    intro L h m hm
    unfold retainAux at h
    obtain ⟨keep, hkeep, h⟩ := PRes.bind_ok h
    obtain ⟨rest, hrest, h⟩ := PRes.bind_ok h
    injection h with h
    subst h
    split at hm
    · rcases List.mem_cons.mp hm with hh | ht
      · exact hh ▸ List.mem_cons_self m0 r
      · exact List.mem_cons_of_mem m0 (ih hrest ht)
    · exact List.mem_cons_of_mem m0 (ih hrest hm)

theorem all_legal_moves_mem {g : Game} {L : List Move} (hg : Good g)
    (h : all_legal_moves g = .ok L) {m : Move} (hm : m ∈ L) :
    ∃ i, (all_pieces g &&& color_bitboards g g.to_move).testBit i = true ∧
      ∃ ms, genMovesAt g i = .ok ms ∧ m ∈ ms := by
  unfold all_legal_moves at h
  try dsimp only at h
  obtain ⟨moves, hmoves, h⟩ := PRes.bind_ok h
  have hm2 : m ∈ moves := retainAux_mem h hm
  rcases pseudoAux_mem hmoves hm2 with hacc | ⟨i, hi, ms, hms, hmm⟩
  · exact absurd hacc (List.not_mem_nil m)
  · have hlt : all_pieces g &&& color_bitboards g g.to_move < 2 ^ 64 :=
      lt_of_le_of_lt Nat.and_le_left (lor_lt hg.wfW hg.wfB)
    exact ⟨i, bitIndices_mem hlt hi, ms, hms, hmm⟩

theorem knight_moves_shape {g : Game} {s : Square} {bb : Nat}
    (h : knight_moves g s = .ok bb) :
    ∃ c, color_at g s = .ok c ∧
      bb = pseudolegal_knight_moves s &&& bbNot (color_bitboards g c) := by
  unfold knight_moves at h
  obtain ⟨c, hc, h⟩ := PRes.bind_ok h
  injection h with h
  exact ⟨c, hc, h.symm⟩

theorem pawn_moves_shape {g : Game} {s : Square} {bb : Nat}
    (h : pawn_moves g s = .ok bb) :
    ∃ c core, color_at g s = .ok c ∧ bb = core &&& bbNot (color_bitboards g c) := by
  unfold pawn_moves at h
  obtain ⟨c, hc, h⟩ := PRes.bind_ok h
  try dsimp only at h
  obtain ⟨fwd, hfwd, h⟩ := PRes.bind_ok h
  try dsimp only at h
  injection h with h
  exact ⟨c, _, hc, h.symm⟩

theorem slider_moves_shape {g : Game} {s : Square} {bb : Nat}
    (h : slider_moves g s = .ok bb) :
    ∃ c core, color_at g s = .ok c ∧ bb = core &&& bbNot (color_bitboards g c) := by
  unfold slider_moves at h
  obtain ⟨mv, hmv, h⟩ := PRes.bind_ok h
  obtain ⟨c, hc, h⟩ := PRes.bind_ok h
  injection h with h
  exact ⟨c, mv, hc, h.symm⟩

theorem king_moves_own {g : Game} {c : Color} {bb : Nat}
    (h : king_moves g c = .ok bb) :
    ∃ core, bb = core &&& bbNot (color_bitboards g c) := by
  unfold king_moves at h
  try dsimp only at h
  split at h
  · exact PRes.noConfusion h
  · obtain ⟨ksq, hksq, h⟩ := PRes.bind_ok h
    try dsimp only at h
    injection h with h
    exact ⟨_, h.symm⟩

theorem king_moves_stop {g : Game} {c : Color} {bb : Nat}
    (h : king_moves g c = .ok bb) {j : Nat} (hj : j < 64)
    (hbit : bb.testBit j = true) :
    (color_bitboards g c).testBit j = false ∧
    ∃ ksq : Square,
      squareFromU8 (trailing_zeros (color_bitboards g c &&& piece_bitboards g Piece.KING))
        = .ok ksq ∧
      ((kingStepsFold ksq).testBit j = true ∨
        (g.in_check = none ∧
          ((kingsideCondition g c ∧ j = (ksDest c).val) ∨
           (¬ kingsideCondition g c ∧ queensideCondition g c ∧ j = (qsDest c).val)))) := by
  unfold king_moves at h
  try dsimp only at h
  split at h
  · exact PRes.noConfusion h
  · obtain ⟨ksq, hksq, h⟩ := PRes.bind_ok h
    try dsimp only at h
    injection h with h
    subst h
    obtain ⟨h1, h2⟩ := land_bbNot_spec hj hbit
    refine ⟨h2, ksq, hksq, ?_⟩
    by_cases hchk : g.in_check.isNone = true
    · rw [if_pos hchk] at h1
      have hn : g.in_check = none := Option.isNone_iff_eq_none.mp hchk
      cases c with
      | WHITE =>
        dsimp only at h1
        split at h1
        · next hks =>
          rw [Nat.testBit_lor] at h1
          rcases Bool.or_eq_true_iff.mp h1 with hb | hc1
          · exact Or.inl hb
          · rw [from_square_eq, Nat.testBit_two_pow] at hc1
            have h6 : (sqG1).val = j := of_decide_eq_true hc1
            exact Or.inr ⟨hn, Or.inl ⟨hks, h6.symm⟩⟩
        · next hks =>
          split at h1
          · next hqs =>
            rw [Nat.testBit_lor] at h1
            rcases Bool.or_eq_true_iff.mp h1 with hb | hc1
            · exact Or.inl hb
            · rw [from_square_eq, Nat.testBit_two_pow] at hc1
              have h2v : (sqC1).val = j := of_decide_eq_true hc1
              exact Or.inr ⟨hn, Or.inr ⟨hks, hqs, h2v.symm⟩⟩
          · exact Or.inl h1
      | BLACK =>
        dsimp only at h1
        split at h1
        · next hks =>
          rw [Nat.testBit_lor] at h1
          rcases Bool.or_eq_true_iff.mp h1 with hb | hc1
          · exact Or.inl hb
          · rw [from_square_eq, Nat.testBit_two_pow] at hc1
            have h6 : (sqG8).val = j := of_decide_eq_true hc1
            exact Or.inr ⟨hn, Or.inl ⟨hks, h6.symm⟩⟩
        · next hks =>
          split at h1
          · next hqs =>
            rw [Nat.testBit_lor] at h1
            rcases Bool.or_eq_true_iff.mp h1 with hb | hc1
            · exact Or.inl hb
            · rw [from_square_eq, Nat.testBit_two_pow] at hc1
              have h2v : (sqC8).val = j := of_decide_eq_true hc1
              exact Or.inr ⟨hn, Or.inr ⟨hks, hqs, h2v.symm⟩⟩
          · exact Or.inl h1
    · rw [if_neg hchk] at h1
      exact Or.inl h1

theorem is_capture_of_empty {g : Game} {m : Move}
    (h : is_square_empty g m.stop = true) : is_capture g m = .ok false := by
  unfold is_capture
  rw [if_pos h]

theorem is_capture_false_same_color {g : Game} {m : Move}
    (h : is_capture g m = .ok false) (hne : is_square_empty g m.stop = false) :
    ∃ c0, color_at g m.stop = .ok c0 ∧ color_at g m.start = .ok c0 := by
  unfold is_capture at h
  rw [hne] at h
  simp only [Bool.false_eq_true, if_false] at h
  obtain ⟨ce, hce, h⟩ := PRes.bind_ok h
  obtain ⟨cs, hcs, h⟩ := PRes.bind_ok h
  split at h
  · next heq => exact ⟨cs, heq ▸ hce, hcs⟩
  · exact absurd h (by simp)

theorem is_capture_true_spec {g : Game} {m : Move}
    (h : is_capture g m = .ok true) :
    is_square_empty g m.stop = false ∧
    ∃ ce cs, color_at g m.stop = .ok ce ∧ color_at g m.start = .ok cs ∧ ce ≠ cs := by
  unfold is_capture at h
  by_cases he : is_square_empty g m.stop = true
  · rw [if_pos he] at h
    exact absurd h (by simp)
  · have hne : is_square_empty g m.stop = false := by
      rwa [Bool.not_eq_true] at he
    rw [if_neg he] at h
    obtain ⟨ce, hce, h⟩ := PRes.bind_ok h
    obtain ⟨cs, hcs, h⟩ := PRes.bind_ok h
    split at h
    · exact absurd h (by simp)
    · next hcc => exact ⟨hne, ce, cs, hce, hcs, hcc⟩

theorem handle_capture_epn {g : Game} {m : Move} {p : Piece} {c : Color} {g2 : Game}
    (hep : g.en_passant_square = none)
    (h : handle_capture g m p c = .ok g2) :
    ∃ cp, type_at g m.stop = .ok cp ∧ remove_piece g m.stop cp = .ok g2 := by
  unfold handle_capture at h
  obtain ⟨cp, hcp, h⟩ := PRes.bind_ok h
  try dsimp only at h
  have hie : (if p = Piece.PAWN then is_en_passant g m cp else false) = false := by
    split
    · unfold is_en_passant
      rw [hep]
      rfl
    · rfl
  rw [hie] at h
  simp only [Bool.not_false, if_true] at h
  exact ⟨cp, hcp, h⟩

theorem is_square_empty_bits {g : Game} {t : Square}
    (h : is_square_empty g t = true) :
    (color_bitboards g Color.WHITE).testBit t.val = false ∧
    (color_bitboards g Color.BLACK).testBit t.val = false := by
  unfold is_square_empty all_pieces bbContains at h
  rw [Bool.not_eq_eq_eq_not, Bool.not_true] at h
  rw [Nat.testBit_lor] at h
  exact ⟨by rcases Bool.or_eq_false_iff.mp h with ⟨h1, h2⟩; exact h1,
         by rcases Bool.or_eq_false_iff.mp h with ⟨h1, h2⟩; exact h2⟩

theorem castle_relocate_good {g : Game} {c : Color} {m : Move} (rs rd : Square)
    (hg : Good g)
    (hksc : (color_bitboards g c).testBit m.start.val = true)
    (hksp : (piece_bitboards g Piece.KING).testBit m.start.val = true)
    (hrp : (piece_bitboards g Piece.ROOK).testBit rs.val = true)
    (hrc : (color_bitboards g c).testBit rs.val = true)
    (hrdW : (color_bitboards g Color.WHITE).testBit rd.val = false)
    (hrdB : (color_bitboards g Color.BLACK).testBit rd.val = false)
    (hkdW : (color_bitboards g Color.WHITE).testBit m.stop.val = false)
    (hkdB : (color_bitboards g Color.BLACK).testBit m.stop.val = false)
    (h1 : rd.val ≠ m.start.val) (h2 : rs.val ≠ m.start.val)
    (h3 : rd.val ≠ m.stop.val) (h4 : rs.val ≠ m.stop.val) :
    Good (move_piece (move_piece g { start := rs, stop := rd } Piece.ROOK c)
      m Piece.KING c) := by
  have hgood1 : Good (move_piece g { start := rs, stop := rd } Piece.ROOK c) :=
    move_piece_good hg hrc hrp hrdW hrdB
  have hcC : ∀ d i, (color_bitboards (move_piece g { start := rs, stop := rd }
      Piece.ROOK c) d).testBit i =
      (if d = c
       then (((color_bitboards g c).testBit i).xor (decide (rs.val = i)) ||
         decide (rd.val = i))
       else (color_bitboards g d).testBit i) := by
    intro d i
    rw [move_piece_colorBB]
    by_cases hdc : d = c
    · rw [if_pos hdc, if_pos hdc,
        show ({ start := rs, stop := rd } : Move).start = rs from rfl,
        show ({ start := rs, stop := rd } : Move).stop = rd from rfl, testBit_update]
    · rw [if_neg hdc, if_neg hdc]
  have hcP : ∀ i, (piece_bitboards (move_piece g { start := rs, stop := rd }
      Piece.ROOK c) Piece.KING).testBit i = (piece_bitboards g Piece.KING).testBit i := by
    intro i
    rw [move_piece_pieceBB, if_neg (by decide : ¬(Piece.KING = Piece.ROOK))]
  apply move_piece_good hgood1
  · rw [hcC c m.start.val, if_pos rfl, hksc, decide_eq_false h2, decide_eq_false h1]
    rfl
  · rw [hcP m.start.val]
    exact hksp
  · rw [hcC Color.WHITE m.stop.val]
    by_cases hwc : Color.WHITE = c
    · rw [if_pos hwc, ← hwc, hkdW, decide_eq_false h4, decide_eq_false h3]
      rfl
    · rw [if_neg hwc]
      exact hkdW
  · rw [hcC Color.BLACK m.stop.val]
    by_cases hbc : Color.BLACK = c
    · rw [if_pos hbc, ← hbc, hkdB, decide_eq_false h4, decide_eq_false h3]
      rfl
    · rw [if_neg hbc]
      exact hkdB

/-- The starting position satisfies the strengthened invariant. -/
theorem good_default : Good gameDefault := by
  refine {
    wfW := ?_, wfB := ?_, wfP := ?_, cdisj := ?_, pdisj := ?_, ueq := ?_,
    epn := ?_, k1 := ?_ }
  · decide
  · decide
  · decide
  · decide
  · intro p q hpq
    cases p <;> cases q <;> first | (exact absurd rfl hpq) | decide
  · decide
  · decide
  · intro c
    cases c with
    | WHITE =>
      have hv : color_bitboards gameDefault Color.WHITE &&&
          piece_bitboards gameDefault Piece.KING = 2 ^ 4 := by decide
      rw [hv]
      exact atMostOne_two_pow 4
    | BLACK =>
      have hv : color_bitboards gameDefault Color.BLACK &&&
          piece_bitboards gameDefault Piece.KING = 2 ^ 60 := by decide
      rw [hv]
      exact atMostOne_two_pow 60

/-- `Good` implies the §3 invariant pair checked by `claimInvB`. -/
theorem good_claimInv {g : Game} (hg : Good g) : claimInvB g = true := by
  have e1 : g.pbPawn &&& g.pbKnight = 0 := hg.pdisj Piece.PAWN Piece.KNIGHT (by decide)
  have e2 : g.pbPawn &&& g.pbBishop = 0 := hg.pdisj Piece.PAWN Piece.BISHOP (by decide)
  have e3 : g.pbPawn &&& g.pbRook = 0 := hg.pdisj Piece.PAWN Piece.ROOK (by decide)
  have e4 : g.pbPawn &&& g.pbQueen = 0 := hg.pdisj Piece.PAWN Piece.QUEEN (by decide)
  have e5 : g.pbPawn &&& g.pbKing = 0 := hg.pdisj Piece.PAWN Piece.KING (by decide)
  have e6 : g.pbKnight &&& g.pbBishop = 0 := hg.pdisj Piece.KNIGHT Piece.BISHOP (by decide)
  have e7 : g.pbKnight &&& g.pbRook = 0 := hg.pdisj Piece.KNIGHT Piece.ROOK (by decide)
  have e8 : g.pbKnight &&& g.pbQueen = 0 := hg.pdisj Piece.KNIGHT Piece.QUEEN (by decide)
  have e9 : g.pbKnight &&& g.pbKing = 0 := hg.pdisj Piece.KNIGHT Piece.KING (by decide)
  have e10 : g.pbBishop &&& g.pbRook = 0 := hg.pdisj Piece.BISHOP Piece.ROOK (by decide)
  have e11 : g.pbBishop &&& g.pbQueen = 0 := hg.pdisj Piece.BISHOP Piece.QUEEN (by decide)
  have e12 : g.pbBishop &&& g.pbKing = 0 := hg.pdisj Piece.BISHOP Piece.KING (by decide)
  have e13 : g.pbRook &&& g.pbQueen = 0 := hg.pdisj Piece.ROOK Piece.QUEEN (by decide)
  have e14 : g.pbRook &&& g.pbKing = 0 := hg.pdisj Piece.ROOK Piece.KING (by decide)
  have e15 : g.pbQueen &&& g.pbKing = 0 := hg.pdisj Piece.QUEEN Piece.KING (by decide)
  have eu : g.cbWhite ||| g.cbBlack = pieceUnion g := hg.ueq
  unfold claimInvB piecesDisjointB
  rw [e1, e2, e3, e4, e5, e6, e7, e8, e9, e10, e11, e12, e13, e14, e15, eu]
  simp

/-- One legal generated move (with the castling-rook side condition)
applied by `make_move` preserves the strengthened invariant. -/
theorem step_good {g : Game} {L : List Move} {m : Move} {g2 : Game}
    (hg : Good g) (hL : all_legal_moves g = .ok L) (hmL : m ∈ L)
    (hcastle : CastleOk g m) (hmm : make_move g m = .ok g2) : Good g2 := by
  obtain ⟨i, hib, ms, hgen, hms⟩ := all_legal_moves_mem hg hL hmL
  obtain ⟨s, p0, bb, hsq, hp0, hbb, hstart, hstop⟩ := genMovesAt_mem hgen hms
  have hsv : s.val = i := squareFromU8_ok hsq
  rw [Nat.testBit_land, Bool.and_eq_true] at hib
  have hownbit : (color_bitboards g g.to_move).testBit m.start.val = true := by
    rw [hstart, hsv]
    exact hib.2
  have hca : color_at g s = .ok g.to_move := color_at_of_own hg (by rw [hsv]; exact hib.2)
  unfold make_move at hmm
  obtain ⟨p, hp, hm1⟩ := PRes.bind_ok hmm
  clear hmm
  obtain ⟨c, hc, hm2⟩ := PRes.bind_ok hm1
  clear hm1
  try dsimp only at hm2
  obtain ⟨cap, hcap, hm3⟩ := PRes.bind_ok hm2
  clear hm2
  try dsimp only at hm3
  obtain ⟨g1, hg1, hm4⟩ := PRes.bind_ok hm3
  clear hm3
  try dsimp only at hm4
  obtain ⟨gc, hgc, hT⟩ := PRes.bind_ok hm4
  clear hm4
  try dsimp only at hT
  have hpp0 : p = p0 := by
    rw [hstart, hp0] at hp
    injection hp with hp
    exact hp.symm
  subst hpp0
  have hcc : c = g.to_move := by
    rw [hstart, hca] at hc
    injection hc with hc
    exact hc.symm
  subst hcc
  have hspbit : (piece_bitboards g p).testBit m.start.val = true := by
    rw [hstart]
    exact type_at_ok_testBit hp0
  have hstoplt : m.stop.val < 64 := m.stop.isLt
  have hnotown : (color_bitboards g g.to_move).testBit m.stop.val = false := by
    cases p with
    | PAWN =>
      obtain ⟨cg, core, hcg, hbbeq⟩ := pawn_moves_shape hbb
      have hcgt : cg = g.to_move := by
        rw [hca] at hcg
        injection hcg with h
        exact h.symm
      subst hcgt
      have hlt : bb < 2 ^ 64 := by
        rw [hbbeq]
        exact land_bbNot_lt (good_cb_lt hg g.to_move)
      have hbit : bb.testBit m.stop.val = true := bitIndices_mem hlt hstop
      rw [hbbeq] at hbit
      exact (land_bbNot_spec hstoplt hbit).2
    | KNIGHT =>
      obtain ⟨cg, hcg, hbbeq⟩ := knight_moves_shape hbb
      have hcgt : cg = g.to_move := by
        rw [hca] at hcg
        injection hcg with h
        exact h.symm
      subst hcgt
      have hlt : bb < 2 ^ 64 := by
        rw [hbbeq]
        exact land_bbNot_lt (good_cb_lt hg g.to_move)
      have hbit : bb.testBit m.stop.val = true := bitIndices_mem hlt hstop
      rw [hbbeq] at hbit
      exact (land_bbNot_spec hstoplt hbit).2
    | BISHOP =>
      obtain ⟨cg, core, hcg, hbbeq⟩ := slider_moves_shape hbb
      have hcgt : cg = g.to_move := by
        rw [hca] at hcg
        injection hcg with h
        exact h.symm
      subst hcgt
      have hlt : bb < 2 ^ 64 := by
        rw [hbbeq]
        exact land_bbNot_lt (good_cb_lt hg g.to_move)
      have hbit : bb.testBit m.stop.val = true := bitIndices_mem hlt hstop
      rw [hbbeq] at hbit
      exact (land_bbNot_spec hstoplt hbit).2
    | ROOK =>
      obtain ⟨cg, core, hcg, hbbeq⟩ := slider_moves_shape hbb
      have hcgt : cg = g.to_move := by
        rw [hca] at hcg
        injection hcg with h
        exact h.symm
      subst hcgt
      have hlt : bb < 2 ^ 64 := by
        rw [hbbeq]
        exact land_bbNot_lt (good_cb_lt hg g.to_move)
      have hbit : bb.testBit m.stop.val = true := bitIndices_mem hlt hstop
      rw [hbbeq] at hbit
      exact (land_bbNot_spec hstoplt hbit).2
    | QUEEN =>
      obtain ⟨cg, core, hcg, hbbeq⟩ := slider_moves_shape hbb
      have hcgt : cg = g.to_move := by
        rw [hca] at hcg
        injection hcg with h
        exact h.symm
      subst hcgt
      have hlt : bb < 2 ^ 64 := by
        rw [hbbeq]
        exact land_bbNot_lt (good_cb_lt hg g.to_move)
      have hbit : bb.testBit m.stop.val = true := bitIndices_mem hlt hstop
      rw [hbbeq] at hbit
      exact (land_bbNot_spec hstoplt hbit).2
    | KING =>
      have hbbK : king_moves g g.to_move = .ok bb := hbb
      obtain ⟨core, hbbeq⟩ := king_moves_own hbbK
      have hlt : bb < 2 ^ 64 := by
        rw [hbbeq]
        exact land_bbNot_lt (good_cb_lt hg g.to_move)
      have hbit : bb.testBit m.stop.val = true := bitIndices_mem hlt hstop
      exact (king_moves_stop hbbK hstoplt hbit).1
  by_cases hcas : (if p = Piece.KING then is_castle m p g.to_move else false) = true
  · -- castling dispatch
    have hpk : p = Piece.KING := by
      by_contra hpk
      rw [if_neg hpk] at hcas
      exact Bool.noConfusion hcas
    subst hpk
    rw [if_pos hcas] at hg1
    rw [if_pos rfl] at hcas
    have hic := hcas
    have hbbK : king_moves g g.to_move = .ok bb := hbb
    obtain ⟨core, hbbeq⟩ := king_moves_own hbbK
    have hlt : bb < 2 ^ 64 := by
      rw [hbbeq]
      exact land_bbNot_lt (good_cb_lt hg g.to_move)
    have hbit : bb.testBit m.stop.val = true := bitIndices_mem hlt hstop
    obtain ⟨hnotown2, ksq, hksq, hdisj⟩ := king_moves_stop hbbK m.stop.isLt hbit
    have hkingbit : (color_bitboards g g.to_move &&&
        piece_bitboards g Piece.KING).testBit s.val = true := by
      rw [Nat.testBit_land, Bool.and_eq_true]
      exact ⟨by rw [hsv]; exact hib.2, by rw [← hstart]; exact hspbit⟩
    have hmask : color_bitboards g g.to_move &&& piece_bitboards g Piece.KING
        = 2 ^ s.val := atMostOne_eq_two_pow (hg.k1 g.to_move) hkingbit
    have hksqs : ksq = s := by
      rw [hmask, trailing_zeros_two_pow s.isLt] at hksq
      exact Fin.ext (squareFromU8_ok hksq)
    rw [hksqs] at hdisj
    unfold is_castle at hcas
    rw [Bool.or_eq_true, Bool.or_eq_true, Bool.or_eq_true] at hcas
    rcases hcas with ((h1 | h1) | h1) | h1
    · -- white queenside: e1 -> c1, rook a1 -> d1
      rw [Bool.and_eq_true, Bool.and_eq_true, Bool.and_eq_true] at h1
      obtain ⟨⟨⟨-, hcwb⟩, hseb⟩, hstb⟩ := h1
      have hcw : g.to_move = Color.WHITE := by simpa using hcwb
      have hse : m.start = sqE1 := by simpa using hseb
      have hst : m.stop = sqC1 := by simpa using hstb
      have hs1 : s = sqE1 := by
        rw [hstart] at hse
        exact hse
      rcases hdisj with hkstep | ⟨hchk, hor⟩
      · rw [hs1, hst] at hkstep
        exact absurd hkstep (by decide)
      · rw [hcw] at hor
        rcases hor with ⟨hksc, h6⟩ | ⟨hnks, hqsc, h2⟩
        · rw [hst] at h6
          exact absurd h6 (by decide)
        · obtain ⟨hrights, hB1, hC1, hD1⟩ := hqsc
          have hcapok : is_capture g m = .ok false :=
            is_capture_of_empty (by rw [hst]; exact hC1)
          rw [hcapok] at hcap
          injection hcap with hcap
          subst hcap
          rw [hst] at hg1
          rw [if_pos rfl] at hg1
          injection hg1 with hg1
          subst hg1
          rw [if_neg (by decide : ¬(false = true))] at hgc
          injection hgc with hgc
          subst hgc
          have hcrs := hcastle Piece.KING g.to_move hp hc hic
          rw [hst, show castleRookSource sqC1 = sqA1 from by decide] at hcrs
          unfold bbContains at hcrs
          rw [Nat.testBit_land, Bool.and_eq_true] at hcrs
          obtain ⟨hD1W, hD1B⟩ := is_square_empty_bits hD1
          obtain ⟨hC1W, hC1B⟩ := is_square_empty_bits hC1
          have hgood3 := castle_relocate_good (g := g) (c := g.to_move) (m := m)
            sqA1 sqD1 hg hownbit hspbit hcrs.1 hcrs.2 hD1W hD1B
            (by rw [hst]; exact hC1W) (by rw [hst]; exact hC1B)
            (by rw [hse]; decide) (by rw [hse]; decide)
            (by rw [hst]; decide) (by rw [hst]; decide)
          obtain ⟨hC, hP, hep⟩ := make_move_tail_fields _ m Piece.KING g.to_move false
            g2 hT
          exact good_transfer hC hP hep hgood3
    · -- white kingside: e1 -> g1, rook h1 -> f1
      rw [Bool.and_eq_true, Bool.and_eq_true, Bool.and_eq_true] at h1
      obtain ⟨⟨⟨-, hcwb⟩, hseb⟩, hstb⟩ := h1
      have hcw : g.to_move = Color.WHITE := by simpa using hcwb
      have hse : m.start = sqE1 := by simpa using hseb
      have hst : m.stop = sqG1 := by simpa using hstb
      have hs1 : s = sqE1 := by
        rw [hstart] at hse
        exact hse
      rcases hdisj with hkstep | ⟨hchk, hor⟩
      · rw [hs1, hst] at hkstep
        exact absurd hkstep (by decide)
      · rw [hcw] at hor
        rcases hor with ⟨hksc, h6⟩ | ⟨hnks, hqsc, h2⟩
        · obtain ⟨hrights, hF1, hG1⟩ := hksc
          have hcapok : is_capture g m = .ok false :=
            is_capture_of_empty (by rw [hst]; exact hG1)
          rw [hcapok] at hcap
          injection hcap with hcap
          subst hcap
          rw [hst] at hg1
          rw [if_neg (by decide : ¬(sqG1 = sqC1)), if_pos rfl] at hg1
          injection hg1 with hg1
          subst hg1
          rw [if_neg (by decide : ¬(false = true))] at hgc
          injection hgc with hgc
          subst hgc
          have hcrs := hcastle Piece.KING g.to_move hp hc hic
          rw [hst, show castleRookSource sqG1 = sqH1 from by decide] at hcrs
          unfold bbContains at hcrs
          rw [Nat.testBit_land, Bool.and_eq_true] at hcrs
          obtain ⟨hF1W, hF1B⟩ := is_square_empty_bits hF1
          obtain ⟨hG1W, hG1B⟩ := is_square_empty_bits hG1
          have hgood3 := castle_relocate_good (g := g) (c := g.to_move) (m := m)
            sqH1 sqF1 hg hownbit hspbit hcrs.1 hcrs.2 hF1W hF1B
            (by rw [hst]; exact hG1W) (by rw [hst]; exact hG1B)
            (by rw [hse]; decide) (by rw [hse]; decide)
            (by rw [hst]; decide) (by rw [hst]; decide)
          obtain ⟨hC, hP, hep⟩ := make_move_tail_fields _ m Piece.KING g.to_move false
            g2 hT
          exact good_transfer hC hP hep hgood3
        · rw [hst] at h2
          exact absurd h2 (by decide)
    · -- black queenside: e8 -> c8, rook a8 -> d8
      rw [Bool.and_eq_true, Bool.and_eq_true, Bool.and_eq_true] at h1
      obtain ⟨⟨⟨-, hcwb⟩, hseb⟩, hstb⟩ := h1
      have hcw : g.to_move = Color.BLACK := by simpa using hcwb
      have hse : m.start = sqE8 := by simpa using hseb
      have hst : m.stop = sqC8 := by simpa using hstb
      have hs1 : s = sqE8 := by
        rw [hstart] at hse
        exact hse
      rcases hdisj with hkstep | ⟨hchk, hor⟩
      · rw [hs1, hst] at hkstep
        exact absurd hkstep (by decide)
      · rw [hcw] at hor
        rcases hor with ⟨hksc, h6⟩ | ⟨hnks, hqsc, h2⟩
        · rw [hst] at h6
          exact absurd h6 (by decide)
        · obtain ⟨hrights, hB8, hC8, hD8⟩ := hqsc
          have hcapok : is_capture g m = .ok false :=
            is_capture_of_empty (by rw [hst]; exact hC8)
          rw [hcapok] at hcap
          injection hcap with hcap
          subst hcap
          rw [hst] at hg1
          rw [if_neg (by decide : ¬(sqC8 = sqC1)), if_neg (by decide : ¬(sqC8 = sqG1)),
            if_pos rfl] at hg1
          injection hg1 with hg1
          subst hg1
          rw [if_neg (by decide : ¬(false = true))] at hgc
          injection hgc with hgc
          subst hgc
          have hcrs := hcastle Piece.KING g.to_move hp hc hic
          rw [hst, show castleRookSource sqC8 = sqA8 from by decide] at hcrs
          unfold bbContains at hcrs
          rw [Nat.testBit_land, Bool.and_eq_true] at hcrs
          obtain ⟨hD8W, hD8B⟩ := is_square_empty_bits hD8
          obtain ⟨hC8W, hC8B⟩ := is_square_empty_bits hC8
          have hgood3 := castle_relocate_good (g := g) (c := g.to_move) (m := m)
            sqA8 sqD8 hg hownbit hspbit hcrs.1 hcrs.2 hD8W hD8B
            (by rw [hst]; exact hC8W) (by rw [hst]; exact hC8B)
            (by rw [hse]; decide) (by rw [hse]; decide)
            (by rw [hst]; decide) (by rw [hst]; decide)
          obtain ⟨hC, hP, hep⟩ := make_move_tail_fields _ m Piece.KING g.to_move false
            g2 hT
          exact good_transfer hC hP hep hgood3
    · -- black kingside: e8 -> g8, rook h8 -> f8
      rw [Bool.and_eq_true, Bool.and_eq_true, Bool.and_eq_true] at h1
      obtain ⟨⟨⟨-, hcwb⟩, hseb⟩, hstb⟩ := h1
      have hcw : g.to_move = Color.BLACK := by simpa using hcwb
      have hse : m.start = sqE8 := by simpa using hseb
      have hst : m.stop = sqG8 := by simpa using hstb
      have hs1 : s = sqE8 := by
        rw [hstart] at hse
        exact hse
      rcases hdisj with hkstep | ⟨hchk, hor⟩
      · rw [hs1, hst] at hkstep
        exact absurd hkstep (by decide)
      · rw [hcw] at hor
        rcases hor with ⟨hksc, h6⟩ | ⟨hnks, hqsc, h2⟩
        · obtain ⟨hrights, hF8, hG8⟩ := hksc
          have hcapok : is_capture g m = .ok false :=
            is_capture_of_empty (by rw [hst]; exact hG8)
          rw [hcapok] at hcap
          injection hcap with hcap
          subst hcap
          rw [hst] at hg1
          rw [if_neg (by decide : ¬(sqG8 = sqC1)), if_neg (by decide : ¬(sqG8 = sqG1)),
            if_neg (by decide : ¬(sqG8 = sqC8)), if_pos rfl] at hg1
          injection hg1 with hg1
          subst hg1
          rw [if_neg (by decide : ¬(false = true))] at hgc
          injection hgc with hgc
          subst hgc
          have hcrs := hcastle Piece.KING g.to_move hp hc hic
          rw [hst, show castleRookSource sqG8 = sqH8 from by decide] at hcrs
          unfold bbContains at hcrs
          rw [Nat.testBit_land, Bool.and_eq_true] at hcrs
          obtain ⟨hF8W, hF8B⟩ := is_square_empty_bits hF8
          obtain ⟨hG8W, hG8B⟩ := is_square_empty_bits hG8
          have hgood3 := castle_relocate_good (g := g) (c := g.to_move) (m := m)
            sqH8 sqF8 hg hownbit hspbit hcrs.1 hcrs.2 hF8W hF8B
            (by rw [hst]; exact hG8W) (by rw [hst]; exact hG8B)
            (by rw [hse]; decide) (by rw [hse]; decide)
            (by rw [hst]; decide) (by rw [hst]; decide)
          obtain ⟨hC, hP, hep⟩ := make_move_tail_fields _ m Piece.KING g.to_move false
            g2 hT
          exact good_transfer hC hP hep hgood3
        · rw [hst] at h2
          exact absurd h2 (by decide)
  · -- no castling dispatch
    rw [if_neg hcas] at hg1
    injection hg1 with hg1
    subst hg1
    cases cap with
    | false =>
      rw [if_neg (by decide : ¬(false = true))] at hgc
      injection hgc with hgc
      subst hgc
      by_cases hemp : is_square_empty g m.stop = true
      · obtain ⟨heW, heB⟩ := is_square_empty_bits hemp
        have hgood3 : Good (move_piece g m p g.to_move) :=
          move_piece_good hg hownbit hspbit heW heB
        obtain ⟨hC, hP, hep⟩ := make_move_tail_fields g m p g.to_move false g2 hT
        exact good_transfer hC hP hep hgood3
      · have hne : is_square_empty g m.stop = false := by
          rwa [Bool.not_eq_true] at hemp
        obtain ⟨c0, hstopc, hstartc⟩ := is_capture_false_same_color hcap hne
        have hc0 : c0 = g.to_move := by
          rw [hc] at hstartc
          injection hstartc with h
          exact h.symm
        subst hc0
        have hx := color_at_ok_testBit hstopc
        rw [hx] at hnotown
        exact Bool.noConfusion hnotown
    | true =>
      rw [if_pos rfl] at hgc
      obtain ⟨cp, hcp, hrm⟩ := handle_capture_epn hg.epn hgc
      obtain ⟨hgoodgc, hCs, hCo, hPo⟩ := remove_piece_good hg (type_at_ok_testBit hcp) hrm
      obtain ⟨hnemp, ce, cs, hce, hcs, hcecs⟩ := is_capture_true_spec hcap
      have hsne : m.start.val ≠ m.stop.val := by
        intro he
        have hsse : m.start = m.stop := Fin.ext he
        rw [hsse, hce] at hcs
        injection hcs with h
        exact hcecs h
      have hsc2 : (color_bitboards gc g.to_move).testBit m.start.val = true := by
        rw [hCo g.to_move m.start.val hsne]
        exact hownbit
      have hsp2 : (piece_bitboards gc p).testBit m.start.val = true := by
        rw [hPo p m.start.val hsne]
        exact hspbit
      have hgood3 : Good (move_piece gc m p g.to_move) :=
        move_piece_good hgoodgc hsc2 hsp2 (hCs Color.WHITE) (hCs Color.BLACK)
      obtain ⟨hC, hP, hep⟩ := make_move_tail_fields gc m p g.to_move true g2 hT
      exact good_transfer hC hP hep hgood3

theorem reach_good : ∀ {g : Game} {ms : List Move} {g2 : Game},
    Good g → ReachBy g ms g2 → Good g2 := by
  intro g ms g2 hg h
  induction h with
  | nil g => exact hg
  | cons hL hm hco hmm hrest ih =>
    exact ih (step_good hg hL hm hco hmm)

/-- C3 (amended): every position reached from the starting position by a
chain of moves each drawn from `all_legal_moves` of the current position and
applied with `make_move` - provided each castling move finds its rook on the
home corner square - has pairwise-disjoint piece bitboards and color
occupancy equal to piece occupancy. -/
theorem c3_invariants (ms : List Move) (g2 : Game)
    (h : ReachBy gameDefault ms g2) : claimInvB g2 = true :=
  good_claimInv (reach_good good_default h)

/-- Witness for C3: the one-ply chain e2-e4 from the starting position. -/
theorem c3_invariants_witness : claimInvB gameAfterE2E4 = true := by
  apply c3_invariants [{ start := sqE2, stop := sqE4 }] gameAfterE2E4
  refine ReachBy.cons (L := initialMoves) (by decide) (by decide) ?_ (by decide)
    (ReachBy.nil gameAfterE2E4)
  intro p c hp hc hic
  exact absurd hic (by cases p <;> cases c <;> decide)

set_option maxHeartbeats 4000000 in
/-- C3 counterexample (the claim as stated): a 19-ply line in which every
move is drawn from `all_legal_moves` of its position, yet the final position
violates the claimed invariants - the unguarded castling dispatch of
`make_move` relocates a phantom rook from h1 while a knight stands there,
leaving h1 set in both the knight and rook bitboards but in neither color
bitboard. -/
theorem c3_counterexample :
    (match playChain gameDefault c3seq with
     | .ok gf => !(claimInvB gf)
     | .panicked _ => false) = true := by decide
